import Mathlib

/-! The Elasticsearch client of logsearch (`esclient.go`).

A shallow embedding of `buildQuery` and `EsClient.Search`, and of the decoding of a
response body into `EsResponse`, followed by the properties proved about them.

Conventions of the embedding.

* `time.Time` is not declared in the repository and the code only copies such values,
  so it is a type parameter `τ`.
* A Go map literal is an association list in the order of the literal; its keys are
  pairwise distinct, as the Go compiler demands of a literal.
* `int` and `time.Duration` are `Int`; the code compares and copies them, it does no
  arithmetic on them.
* The HTTP and JSON libraries are not part of the repository: the operations `Search`
  calls are the fields of a `Lib` record, each returning a value or an error.
* A finite `float64` is a sign, a significand and a power of two, and the conversion
  of a number literal to it is the correctly rounded one.
-/

set_option autoImplicit false

namespace Logsearch

/-! ## Values held by `interface{}` -/

/-- The Go values that the query document is made of. -/
inductive GoVal (τ : Type) where
  | str (s : String)
  | int (n : Int)
  | bool (b : Bool)
  | time (t : τ)
  | strs (l : List String)
  | map (kvs : List (String × GoVal τ))

namespace GoVal

variable {τ : Type}

/-- The entry of a map under a key; `none` for a missing key and for a value that is
not a map. -/
def get? (k : String) : GoVal τ → Option (GoVal τ)
  | map kvs => kvs.lookup k
  | _ => none

/-- The keys of a map, in order; empty for a value that is not a map. -/
def keys : GoVal τ → List String
  | map kvs => kvs.map Prod.fst
  | _ => []

/-- Follow a path of keys through nested maps. -/
def path : List String → GoVal τ → Option (GoVal τ)
  | [], v => some v
  | k :: ks, v => (v.get? k).bind (path ks)

end GoVal

/-! ## The data types of `esclient.go` -/

/-- The struct `EsClient`. -/
structure EsClient where
  EsUrl : String
  ConnectTimeout : Int

/-- The struct `EsQueryOptions`. -/
structure EsQueryOptions (τ : Type) where
  Query : String
  NumResults : Int
  StartTime : τ
  EndTime : τ
  Show : Bool

/-! ## `buildQuery` -/

section BuildQuery

variable {τ : Type}

/-- The function `buildQuery`. -/
def buildQuery (queryOpts : EsQueryOptions τ) : GoVal τ :=
  let sort : GoVal τ := .map [
    ("@timestamp", .map [
      ("order", .str "asc"),
      ("unmapped_type", .str "long")])]
  let query : GoVal τ := .map [
    ("filtered", .map [
      ("query", .map [
        ("query_string", .map [
          ("query", .str queryOpts.Query),
          ("analyze_wildcard", .str "true")])]),
      ("filter", .map [
        ("range", .map [
          ("@timestamp", .map [
            ("gte", .time queryOpts.StartTime),
            ("lte", .time queryOpts.EndTime)])])])])]
  let highlight : GoVal τ := .map [
    ("pre_tags", .strs ["@BEGIN-LOGSEARCH-HIGHLIGHT@"]),
    ("post_tags", .strs ["@END-LOGSEARCH-HIGHLIGHT@"]),
    ("fields", .map [
      ("*", .map [
        ("force_source", .str "true"),
        ("fragment_size", .int 32000),
        ("number_of_fragments", .int 100)])])]
  .map [
    ("size", .int queryOpts.NumResults),
    ("sort", sort),
    ("query", query),
    ("highlight", highlight)]

end BuildQuery

/-! ## Number literals

A number of a JSON text, as the scan delivers it: its sign, its digits before and after
the point, and its exponent part. The decoder converts the text of the literal; the
number the literal writes is what the properties of the decoding are stated with. -/

/-- The character of a decimal digit. -/
def digitChar (d : Fin 10) : Char := Char.ofNat (48 + d.val)

/-- The number a sequence of decimal digits writes, the first digit the most
significant. -/
def digitsNumber (ds : List (Fin 10)) : Nat := Nat.ofDigits 10 (ds.reverse.map Fin.val)

/-- The exponent part of a number literal: the letter `e` or `E`, an optional sign
(`some true` is `-`, `some false` is `+`) and digits. -/
structure Exponent where
  upper : Bool
  sign : Option Bool
  digits : List (Fin 10)

/-- A number literal: an optional `-`, the digits before the point, the digits after
it (none when there is no point) and an optional exponent part. -/
structure Decimal where
  neg : Bool
  int : List (Fin 10)
  frac : List (Fin 10)
  exp : Option Exponent

namespace Exponent

/-- The characters of an exponent part. -/
def chars (x : Exponent) : List Char :=
  (if x.upper then 'E' else 'e') ::
    ((match x.sign with
      | some true => ['-']
      | some false => ['+']
      | none => []) ++ x.digits.map digitChar)

/-- The integer an exponent part writes. -/
def value (x : Exponent) : Int :=
  if x.sign = some true then -(digitsNumber x.digits : Int) else (digitsNumber x.digits : Int)

end Exponent

namespace Decimal

/-- The characters of a number literal. -/
def chars (d : Decimal) : List Char :=
  (if d.neg then ['-'] else []) ++ d.int.map digitChar
    ++ (if d.frac = [] then [] else '.' :: d.frac.map digitChar)
    ++ (match d.exp with
        | some x => x.chars
        | none => [])

/-- The text of a number literal. -/
def text (d : Decimal) : String := String.mk d.chars

/-- The power of ten of a number literal: its exponent less the number of its fraction
digits. -/
def power (d : Decimal) : Int :=
  (match d.exp with
    | some x => x.value
    | none => 0) - d.frac.length

/-- The magnitude of the number a literal writes. -/
def magnitude (d : Decimal) : ℚ := (digitsNumber (d.int ++ d.frac) : ℚ) * (10 : ℚ) ^ d.power

/-- The number a literal writes. -/
def value (d : Decimal) : ℚ := if d.neg then -d.magnitude else d.magnitude

/-- A literal of a number: it has a digit before the point, and an exponent part has
between one and five digits. -/
def IsNumber (d : Decimal) : Prop :=
  d.int ≠ [] ∧ ∀ x, d.exp = some x → x.digits ≠ [] ∧ x.digits.length ≤ 5

/-- A literal of an integer: digits only, after the sign. -/
def IsInteger (d : Decimal) : Prop := d.int ≠ [] ∧ d.frac = [] ∧ d.exp = none

end Decimal

/-! ## JSON text after scanning, and the values `interface{}` receives from it -/

/-- A JSON value as the decoder walks it: members of an object in the order of the
text, repeated keys included, and a number as its literal. -/
inductive Json where
  | null
  | bool (b : Bool)
  | num (lit : Decimal)
  | str (s : String)
  | arr (elems : List Json)
  | obj (members : List (String × Json))

namespace Json

/-- The member of an object under a key (the first one); `none` otherwise. -/
def get? (k : String) : Json → Option Json
  | obj members => members.lookup k
  | _ => none

/-- The member of an object under a key, a `null` counted as no member. -/
def field (k : String) (j : Json) : Option Json :=
  match j.get? k with
  | some null => none
  | r => r

/-- The keys of an object, in order. -/
def keys : Json → List String
  | obj members => members.map Prod.fst
  | _ => []

/-- The word by which a type error names the JSON value it met. -/
def kind : Json → String
  | null => "null"
  | bool _ => "bool"
  | num _ => "number"
  | str _ => "string"
  | arr _ => "array"
  | obj _ => "object"

end Json

/-- The values a JSON document decodes to inside an `interface{}`: `nil`, `bool`,
`float64`, `string`, `[]interface{}` and `map[string]interface{}`. -/
inductive AnyVal (F : Type) where
  | nil
  | bool (b : Bool)
  | float64 (x : F)
  | str (s : String)
  | slice (l : List (AnyVal F))
  | map (kvs : List (String × AnyVal F))

/-- The error `*json.UnmarshalTypeError`: the JSON value met and the Go type it could
not be stored in. -/
structure UnmarshalTypeError where
  Value : String
  GoType : String
  deriving DecidableEq

/-- A Go slice: its elements, and after them the elements of its backing array that
were written before and lie beyond its length. The rest of the backing array holds
zero values. -/
structure Slice (α : Type) where
  elems : List α
  spare : List α

/-- The struct `EsResponseHit`. -/
structure EsResponseHit (F : Type) where
  Id : String
  Score : F
  Source : List (String × AnyVal F)
  Hightlight : List (String × List String)

/-- The struct `EsResponseHits`. -/
structure EsResponseHits (F : Type) where
  Hits : Slice (EsResponseHit F)
  Total : Int
  MaxScore : F

/-- The struct `EsResponse`. -/
structure EsResponse (F : Type) where
  Hits : EsResponseHits F
  Took : Int
  TimedOut : Bool

/-! ## `float64`, and the conversions of `strconv`

A finite `float64` is the number `± m · 2 ^ e` for a significand `m` below `2 ^ 53` and an
exponent `e` from `-1074` to `971`. `strconv.ParseFloat` gives the `float64` nearest to
the decimal number written, the even significand at a tie, and a range error past the
largest `float64`. -/

/-- A finite `float64`: the number `± m · 2 ^ e`. -/
structure Float64 where
  neg : Bool
  m : Nat
  e : Int
  deriving DecidableEq

namespace Float64

/-- The number a `float64` is. -/
def toRat (x : Float64) : ℚ := (if x.neg then -1 else 1) * (x.m : ℚ) * (2 : ℚ) ^ x.e

/-- The representation of a `float64` value. -/
def Canonical (x : Float64) : Prop :=
  x.m < 2 ^ 53 ∧ -1074 ≤ x.e ∧ x.e ≤ 971 ∧ (x.e = -1074 ∨ 2 ^ 52 ≤ x.m)

instance : Zero Float64 := ⟨⟨false, 0, -1074⟩⟩

end Float64

/-- The exponent of the `float64` nearest to a magnitude `q`: the least `e`, from the
start `e` on, with `q < 2 ^ 53 · 2 ^ e`. -/
def findExp (q : ℚ) : Nat → Int → Int
  | 0, e => e
  | fuel + 1, e => if (2 : ℚ) ^ 53 * (2 : ℚ) ^ e ≤ q then findExp q fuel (e + 1) else e

/-- The integer nearest to `t`, the even one at a tie. -/
def roundHalfEven (t : ℚ) : Int :=
  let f := ⌊t⌋
  if t - f < 1 / 2 then f
  else if 1 / 2 < t - f then f + 1
  else if f % 2 = 0 then f else f + 1

/-- The `float64` of the given sign and of magnitude nearest to `q`; `none` when it lies beyond
the largest `float64`. -/
def roundFloat64 (neg : Bool) (q : ℚ) : Option Float64 :=
  let e := findExp q 2046 (-1074)
  let m := (roundHalfEven (q / (2 : ℚ) ^ e)).toNat
  if m = 2 ^ 53 then
    if e + 1 ≤ 971 then some ⟨neg, 2 ^ 52, e + 1⟩ else none
  else if e ≤ 971 then some ⟨neg, m, e⟩ else none


/-- A `float64` nearest to the number `v`: no `float64` value is closer to `v`. -/
def Float64.IsNearest (v : ℚ) (x : Float64) : Prop :=
  x.Canonical ∧ ∀ y : Float64, y.Canonical → |x.toRat - v| ≤ |y.toRat - v|

/-- The `float64` `x` obeys the tie rule for the number `v`: when another `float64` is
as near to `v`, the significand of `x` is even. -/
def Float64.TieEven (v : ℚ) (x : Float64) : Prop :=
  ∀ y : Float64, y.Canonical → |y.toRat - v| = |x.toRat - v| → y.toRat ≠ x.toRat →
    x.m % 2 = 0

/-- The number a text of decimal digits writes. -/
def digitsNat (ds : List Char) : Nat :=
  ds.foldl (fun n c => 10 * n + (c.toNat - 48)) 0

/-- The exponent of a literal, read as `strconv` reads it: digits are no longer added
once the exponent has reached 10000. -/
def exponentNat (ds : List Char) : Nat :=
  ds.foldl (fun n c => if n < 10000 then 10 * n + (c.toNat - 48) else n) 0

/-- The sign at the head of a literal and what follows it. -/
def scanSign : List Char → Bool × List Char
  | [] => (false, [])
  | c :: cs => if c = '-' then (true, cs) else if c = '+' then (false, cs) else (false, c :: cs)

/-- The fraction digits at the head of a text, after a `.`, and what follows them. -/
def scanFraction : List Char → List Char × List Char
  | [] => ([], [])
  | c :: cs => if c = '.' then cs.span Char.isDigit else ([], c :: cs)

/-- The exponent part that ends a literal: nothing, or `e` or `E`, an optional sign and
at least one digit. -/
def scanExponent : List Char → Option Int
  | [] => some 0
  | c :: cs =>
    if c = 'e' ∨ c = 'E' then
      let (neg, ds) := scanSign cs
      if ds.isEmpty || !ds.all Char.isDigit then none
      else some (if neg then -(exponentNat ds : Int) else (exponentNat ds : Int))
    else none

/-- A decimal literal read as sign, digits and power of ten: the number
`± digits · 10 ^ power`. -/
def scanDecimal (cs : List Char) : Option (Bool × Nat × Int) :=
  let (neg, cs) := scanSign cs
  let (ip, cs) := cs.span Char.isDigit
  let (fp, cs) := scanFraction cs
  if ip.isEmpty && fp.isEmpty then none
  else (scanExponent cs).map fun k => (neg, digitsNat (ip ++ fp), k - fp.length)

/-- The call `strconv.ParseFloat(lit, 64)` on a decimal literal: the `float64` nearest
to the number written, ties to the even significand; `none` for the range error of a
number that rounds beyond the largest `float64`, and for a text that is no decimal
literal. -/
def parseFloat64 (lit : String) : Option Float64 :=
  match scanDecimal lit.data with
  | some (neg, digits, power) => roundFloat64 neg ((digits : ℚ) * (10 : ℚ) ^ power)
  | none => none



/-- The value of a text of decimal digits; `none` when it is empty or has another
character. -/
def digitsValue (ds : List Char) : Option Nat :=
  if ds.isEmpty || !ds.all Char.isDigit then none else some (digitsNat ds)

/-- The call `strconv.ParseInt(lit, 10, 64)`: an optional sign, decimal digits, and a
value in the range of a 64-bit `int`. -/
def parseInt (lit : String) : Option Int :=
  let (neg, ds) := scanSign lit.data
  (digitsValue ds).bind fun n =>
    if neg then (if n ≤ 2 ^ 63 then some (-(n : Int)) else none)
    else (if n < 2 ^ 63 then some (n : Int) else none)

/-! ## Decoding a JSON value into the response structs

`json.Unmarshal` first checks the whole text, then walks the value and stores it in the
destination by the destination's type, the `json:"..."` tags naming the struct fields.
A value that does not fit the type is an `UnmarshalTypeError`; the first one is the
error returned. The decoders take the type `F` of `float64` and the conversion
`parseFloat` of the text of a number literal to it as parameters; `Search` passes the
conversion of its library. -/

/-- Store `v` under `k` in a Go map: replace the value of a key already there, else add
the pair. -/
def upsert {α : Type} (k : String) (v : α) : List (String × α) → List (String × α)
  | [] => [(k, v)]
  | (k', v') :: rest => if k' = k then (k, v) :: rest else (k', v') :: upsert k v rest

/-- Unicode simple case folding, as far as it can reach an ASCII letter: upper to lower
case, the long s to `s` and the Kelvin sign to `k`. -/
def foldRune (c : Char) : Char :=
  if c.isUpper then c.toLower
  else if c = Char.ofNat 0x17F then 's'
  else if c = Char.ofNat 0x212A then 'k'
  else c

/-- The test `bytes.EqualFold name key` for a field name made of ASCII characters. -/
def equalFold (name key : String) : Bool :=
  name.data.map foldRune == key.data.map foldRune

/-- The struct field a key selects: the field whose name is the key, else the first
field whose name equals the key under case folding. -/
def findField (names : List String) (key : String) : Option Nat :=
  if key ∈ names then some (names.indexOf key)
  else
    match names.findIdx? (fun n => equalFold n key) with
    | some i => some i
    | none => none

/-- Decode into a `string`. -/
def decodeString (cur : String) : Json → Except UnmarshalTypeError String
  | .null => .ok cur
  | .str s => .ok s
  | j => .error ⟨j.kind, "string"⟩

/-- Decode into a `bool`. -/
def decodeBool (cur : Bool) : Json → Except UnmarshalTypeError Bool
  | .null => .ok cur
  | .bool b => .ok b
  | j => .error ⟨j.kind, "bool"⟩

/-- Decode into an `int`. -/
def decodeInt (cur : Int) : Json → Except UnmarshalTypeError Int
  | .null => .ok cur
  | .num lit =>
    match parseInt lit.text with
    | some n => .ok n
    | none => .error ⟨"number " ++ lit.text, "int"⟩
  | j => .error ⟨j.kind, "int"⟩

section Decode

variable {F : Type} (parseFloat : String → Option F)

/-- Decode into a `float64`. -/
def decodeFloat64 (cur : F) : Json → Except UnmarshalTypeError F
  | .null => .ok cur
  | .num lit =>
    match parseFloat lit.text with
    | some x => .ok x
    | none => .error ⟨"number " ++ lit.text, "float64"⟩
  | j => .error ⟨j.kind, "float64"⟩

mutual
/-- Decode into an empty `interface{}`. -/
def decodeAny : Json → Except UnmarshalTypeError (AnyVal F)
  | .null => .ok .nil
  | .bool b => .ok (.bool b)
  | .num lit =>
    match parseFloat lit.text with
    | some x => .ok (.float64 x)
    | none => .error ⟨"number " ++ lit.text, "float64"⟩
  | .str s => .ok (.str s)
  | .arr elems => (decodeAnyList elems).map .slice
  | .obj members => (decodeAnyMembers [] members).map .map
/-- Decode the elements of an array into a `[]interface{}`. -/
def decodeAnyList : List Json → Except UnmarshalTypeError (List (AnyVal F))
  | [] => .ok []
  | j :: js => do
    let v ← decodeAny j
    let vs ← decodeAnyList js
    pure (v :: vs)
/-- Decode the members of an object into the `map[string]interface{}` `acc`. -/
def decodeAnyMembers (acc : List (String × AnyVal F)) :
    List (String × Json) → Except UnmarshalTypeError (List (String × AnyVal F))
  | [] => .ok acc
  | (k, j) :: ms => do
    let v ← decodeAny j
    decodeAnyMembers (upsert k v acc) ms
end

/-- Decode into a `map[string]interface{}`: the members are added to the map already
there. -/
def decodeSource (cur : List (String × AnyVal F)) :
    Json → Except UnmarshalTypeError (List (String × AnyVal F))
  | .null => .ok []
  | .obj members => decodeAnyMembers parseFloat cur members
  | j => .error ⟨j.kind, "map[string]interface {}"⟩

/-- Decode into a `[]string`; a `null` element leaves the empty string. -/
def decodeStrings : Json → Except UnmarshalTypeError (List String)
  | .null => .ok []
  | .arr elems => elems.mapM (decodeString "")
  | j => .error ⟨j.kind, "[]string"⟩

/-- Decode into a `map[string][]string`: each member is decoded into a fresh slice and
stored in the map already there. -/
def decodeHighlight (cur : List (String × List String)) :
    Json → Except UnmarshalTypeError (List (String × List String))
  | .null => .ok []
  | .obj members =>
    members.foldlM (fun acc kv => do
      let ss ← decodeStrings kv.2
      pure (upsert kv.1 ss acc)) cur
  | j => .error ⟨j.kind, "map[string][]string"⟩

/-- The `json` names of the fields of `EsResponseHit`. -/
def hitNames : List String := ["_id", "_score", "_source", "highlight"]

/-- The `json` names of the fields of `EsResponseHits`. -/
def hitsNames : List String := ["hits", "total", "max_score"]

/-- The `json` names of the fields of `EsResponse`. -/
def responseNames : List String := ["hits", "took", "timed_out"]

/-- Store one member of an object in an `EsResponseHit`; a key that selects no field is
skipped. -/
def decodeHitField (h : EsResponseHit F) (kv : String × Json) :
    Except UnmarshalTypeError (EsResponseHit F) :=
  match findField hitNames kv.1 with
  | some 0 => do let x ← decodeString h.Id kv.2; pure { h with Id := x }
  | some 1 => do let x ← decodeFloat64 parseFloat h.Score kv.2; pure { h with Score := x }
  | some 2 => do let x ← decodeSource parseFloat h.Source kv.2; pure { h with Source := x }
  | some 3 => do let x ← decodeHighlight h.Hightlight kv.2; pure { h with Hightlight := x }
  | _ => pure h

/-- Decode into an `EsResponseHit`. -/
def decodeHit (cur : EsResponseHit F) : Json → Except UnmarshalTypeError (EsResponseHit F)
  | .null => .ok cur
  | .obj members => members.foldlM (decodeHitField parseFloat) cur
  | j => .error ⟨j.kind, "main.EsResponseHit"⟩

/-- Decode the elements of an array into a `[]EsResponseHit` over the backing array
`backing`: element `i` is decoded into element `i` of the backing array, into a zero
`EsResponseHit` beyond it. -/
def decodeHitList [Zero F] (backing : List (EsResponseHit F)) :
    List Json → Except UnmarshalTypeError (List (EsResponseHit F))
  | [] => .ok []
  | e :: es => do
    let h ← decodeHit parseFloat (backing.headD ⟨"", 0, [], []⟩) e
    let hs ← decodeHitList backing.tail es
    pure (h :: hs)

/-- Decode into a `[]EsResponseHit`. A `null` and an empty array give a slice without
backing array; another array is decoded over the backing array of the slice already
there, and what that array holds beyond the new length stays behind it. -/
def decodeHitSlice [Zero F] (cur : Slice (EsResponseHit F)) :
    Json → Except UnmarshalTypeError (Slice (EsResponseHit F))
  | .null => .ok ⟨[], []⟩
  | .arr [] => .ok ⟨[], []⟩
  | .arr (e :: es) => do
    let hs ← decodeHitList parseFloat (cur.elems ++ cur.spare) (e :: es)
    pure ⟨hs, (cur.elems ++ cur.spare).drop (e :: es).length⟩
  | j => .error ⟨j.kind, "[]main.EsResponseHit"⟩

/-- Store one member of an object in an `EsResponseHits`. -/
def decodeHitsField [Zero F] (h : EsResponseHits F) (kv : String × Json) :
    Except UnmarshalTypeError (EsResponseHits F) :=
  match findField hitsNames kv.1 with
  | some 0 => do let x ← decodeHitSlice parseFloat h.Hits kv.2; pure { h with Hits := x }
  | some 1 => do let x ← decodeInt h.Total kv.2; pure { h with Total := x }
  | some 2 => do let x ← decodeFloat64 parseFloat h.MaxScore kv.2; pure { h with MaxScore := x }
  | _ => pure h

/-- Decode into an `EsResponseHits`. -/
def decodeHits [Zero F] (cur : EsResponseHits F) :
    Json → Except UnmarshalTypeError (EsResponseHits F)
  | .null => .ok cur
  | .obj members => members.foldlM (decodeHitsField parseFloat) cur
  | j => .error ⟨j.kind, "main.EsResponseHits"⟩

/-- Store one member of an object in an `EsResponse`. -/
def decodeResponseField [Zero F] (r : EsResponse F) (kv : String × Json) :
    Except UnmarshalTypeError (EsResponse F) :=
  match findField responseNames kv.1 with
  | some 0 => do let x ← decodeHits parseFloat r.Hits kv.2; pure { r with Hits := x }
  | some 1 => do let x ← decodeInt r.Took kv.2; pure { r with Took := x }
  | some 2 => do let x ← decodeBool r.TimedOut kv.2; pure { r with TimedOut := x }
  | _ => pure r

/-- The zero value of `EsResponse`, the initial value of `esResp`. -/
def zeroResponse [Zero F] : EsResponse F := ⟨⟨⟨[], []⟩, 0, 0⟩, 0, false⟩

/-- Decode into the zero-valued `esResp`: what `json.Unmarshal(body, &esResp)` does
with a body that scanned as the given JSON value. -/
def decodeResponse [Zero F] : Json → Except UnmarshalTypeError (EsResponse F)
  | .null => .ok zeroResponse
  | .obj members => members.foldlM (decodeResponseField parseFloat) zeroResponse
  | j => .error ⟨j.kind, "main.EsResponse"⟩

end Decode

/-! ## Well-formed response bodies

What the properties of the decoding are stated with: when a Go value is the value a
JSON value writes, and the response bodies that have the shape `Search` consumes. -/

/-- A number literal within the range of `float64`: its magnitude is below
`2 ^ 1024 - 2 ^ 970`, half a step above the largest `float64`. -/
def Decimal.InFloatRange (d : Decimal) : Prop :=
  d.IsNumber ∧ d.magnitude < (2 : ℚ) ^ 1024 - (2 : ℚ) ^ 970

/-- A literal of an integer within the range of a 64-bit `int`. -/
def Decimal.InIntRange (d : Decimal) : Prop :=
  d.IsInteger ∧ -(2 : ℚ) ^ 63 ≤ d.value ∧ d.value < (2 : ℚ) ^ 63

/-- The `float64` `x` is the one of a number literal: it has the sign written, is a
`float64` nearest to the number written, and has an even significand when another
`float64` is as near. -/
def FloatOf (d : Decimal) (x : Float64) : Prop :=
  x.neg = d.neg ∧ x.IsNearest d.value ∧ x.TieEven d.value

mutual
/-- A JSON value in which every number literal is within the range of `float64` and no
object repeats a key. -/
def Json.Plain : Json → Prop
  | .null => True
  | .bool _ => True
  | .num lit => lit.InFloatRange
  | .str _ => True
  | .arr elems => Json.PlainList elems
  | .obj members => Json.PlainMembers members ∧ (members.map Prod.fst).Nodup
/-- Every value of the sequence is plain. -/
def Json.PlainList : List Json → Prop
  | [] => True
  | j :: js => Json.Plain j ∧ Json.PlainList js
/-- Every member value is plain. -/
def Json.PlainMembers : List (String × Json) → Prop
  | [] => True
  | (_, j) :: ms => Json.Plain j ∧ Json.PlainMembers ms
end

mutual
/-- The Go value `v` is the value the JSON value writes: the same value, a number being
the `float64` of its literal. -/
def Json.Denotes : Json → AnyVal Float64 → Prop
  | .null, v => v = .nil
  | .bool b, v => v = .bool b
  | .num lit, v => ∃ x, v = .float64 x ∧ FloatOf lit x
  | .str s, v => v = .str s
  | .arr elems, v => ∃ vs, v = .slice vs ∧ Json.DenotesList elems vs
  | .obj members, v => ∃ kvs, v = .map kvs ∧ Json.DenotesMembers members kvs
/-- The Go values are, in order, the values the JSON values write. -/
def Json.DenotesList : List Json → List (AnyVal Float64) → Prop
  | [], vs => vs = []
  | j :: js, vs => ∃ v rest, vs = v :: rest ∧ Json.Denotes j v ∧ Json.DenotesList js rest
/-- The entries of a Go map are, in order, the members of a JSON object: the same keys,
with the values the member values write. -/
def Json.DenotesMembers : List (String × Json) → List (String × AnyVal Float64) → Prop
  | [], kvs => kvs = []
  | (k, j) :: ms, kvs =>
    ∃ v rest, kvs = (k, v) :: rest ∧ Json.Denotes j v ∧ Json.DenotesMembers ms rest
end

/-- The JSON object that writes a highlight mapping: each field name with the array of
its fragments. -/
def highlightJson (hl : List (String × List String)) : Json :=
  .obj (hl.map fun kv => (kv.1, .arr (kv.2.map .str)))

/-- The keys of an object select the fields of a struct without ambiguity: no key is
repeated, and a key that equals a field name under case folding is that name. -/
def FieldKeys (names keys : List String) : Prop :=
  keys.Nodup ∧ ∀ k ∈ keys, ∀ n ∈ names, equalFold n k = true → k = n

/-- A member absent or a string. -/
def IsStringField : Option Json → Prop
  | none => True
  | some (.str _) => True
  | _ => False

/-- A member absent or a boolean. -/
def IsBoolField : Option Json → Prop
  | none => True
  | some (.bool _) => True
  | _ => False

/-- A member absent or an integer within the range of `int`. -/
def IsIntField : Option Json → Prop
  | none => True
  | some (.num lit) => lit.InIntRange
  | _ => False

/-- A member absent or a number within the range of `float64`. -/
def IsFloatField : Option Json → Prop
  | none => True
  | some (.num lit) => lit.InFloatRange
  | _ => False

/-- A member absent or a plain object. -/
def IsSourceField : Option Json → Prop
  | none => True
  | some (.obj members) => Json.Plain (.obj members)
  | _ => False

/-- A member absent or an object of arrays of strings without a repeated key. -/
def IsHighlightField : Option Json → Prop
  | none => True
  | some v => ∃ hl, v = highlightJson hl ∧ (hl.map Prod.fst).Nodup

/-- The string `s` is what the member writes: its string, the empty string for a member
absent. -/
def StringIs : Option Json → String → Prop
  | none, s => s = ""
  | some (.str t), s => s = t
  | _, _ => False

/-- The boolean `b` is what the member writes: its boolean, `false` for a member
absent. -/
def BoolIs : Option Json → Bool → Prop
  | none, b => b = false
  | some (.bool c), b => b = c
  | _, _ => False

/-- The integer `n` is what the member writes: the integer of its literal, 0 for a
member absent. -/
def IntIs : Option Json → Int → Prop
  | none, n => n = 0
  | some (.num lit), n => (n : ℚ) = lit.value
  | _, _ => False

/-- The `float64` `x` is what the member writes: the `float64` of its literal, 0 for a
member absent. -/
def FloatIs : Option Json → Float64 → Prop
  | none, x => x = 0
  | some (.num lit), x => FloatOf lit x
  | _, _ => False

/-- The map `S` is what the member writes: the entries of its object, no entry for a
member absent. -/
def SourceIs : Option Json → List (String × AnyVal Float64) → Prop
  | none, S => S = []
  | some (.obj members), S => Json.DenotesMembers members S
  | _, _ => False

/-- The mapping `H` is what the member writes: the member is the object that writes
`H`; no entry for a member absent. -/
def HighlightIs : Option Json → List (String × List String) → Prop
  | none, H => H = []
  | some v, H => v = highlightJson H

/-- A well-formed element of `hits.hits`: an object with unambiguous keys in which
`_id` is a string, `_score` a number within the range of `float64`, `_source` a plain
object and `highlight` an object of arrays of strings, each of them possibly absent or
`null`. -/
def WellFormedHit (e : Json) : Prop :=
  (∃ members, e = .obj members)
  ∧ FieldKeys hitNames e.keys
  ∧ IsStringField (e.field "_id")
  ∧ IsFloatField (e.field "_score")
  ∧ IsSourceField (e.field "_source")
  ∧ IsHighlightField (e.field "highlight")

/-- A decoded hit agrees with an element of `hits.hits`: its `Id`, `Score`, `Source`
and `Hightlight` are what the element's `_id`, `_score`, `_source` and `highlight`
write. -/
def HitAgrees (e : Json) (h : EsResponseHit Float64) : Prop :=
  StringIs (e.field "_id") h.Id
  ∧ FloatIs (e.field "_score") h.Score
  ∧ SourceIs (e.field "_source") h.Source
  ∧ HighlightIs (e.field "highlight") h.Hightlight

/-- A well-formed `hits` object whose `hits` array is `elems`: unambiguous keys,
well-formed hits, `total` an integer within the range of `int` and `max_score` a number
within the range of `float64`, each of the two possibly absent or `null`. -/
def WellFormedHits (hits : Json) (elems : List Json) : Prop :=
  (∃ members, hits = .obj members)
  ∧ FieldKeys hitsNames hits.keys
  ∧ hits.field "hits" = some (.arr elems)
  ∧ (∀ e ∈ elems, WellFormedHit e)
  ∧ IsIntField (hits.field "total")
  ∧ IsFloatField (hits.field "max_score")

/-- A well-formed response body whose `hits.hits` array is `elems`: an object with
unambiguous keys, a well-formed `hits` object, `took` an integer within the range of
`int` and `timed_out` a boolean, each of the two possibly absent or `null`. -/
def WellFormedBody (body : Json) (elems : List Json) : Prop :=
  (∃ members, body = .obj members)
  ∧ FieldKeys responseNames body.keys
  ∧ (∃ hits, body.field "hits" = some hits ∧ WellFormedHits hits elems)
  ∧ IsIntField (body.field "took")
  ∧ IsBoolField (body.field "timed_out")

/-- A decoded response agrees with a body: `Hits.Total`, `Hits.MaxScore`, `Took` and
`TimedOut` are what the body's `hits.total`, `hits.max_score`, `took` and `timed_out`
write. -/
def ResponseAgrees (body : Json) (r : EsResponse Float64) : Prop :=
  (∃ hits, body.field "hits" = some hits
    ∧ IntIs (hits.field "total") r.Hits.Total
    ∧ FloatIs (hits.field "max_score") r.Hits.MaxScore)
  ∧ IntIs (body.field "took") r.Took
  ∧ BoolIs (body.field "timed_out") r.TimedOut

/-! ## The libraries `Search` calls, and `Search` -/

/-- The bytes of a request or response body. -/
abbrev Bytes := List UInt8

/-- The constant `time.Second`, in the nanoseconds a `time.Duration` counts. -/
def Second : Int := 1000000000

/-- The library operations `Search` relies on. Each takes the arguments `Search` passes
and returns a value or an error of the error type `ε`.

* `Marshal` is `json.Marshal`;
* `NewRequest` is `http.NewRequest` on a method, a URL and a body;
* `Do` is `client.Do` on a client whose transport dials with the given timeout;
* `ReadAll` is `ioutil.ReadAll` on the body of a response;
* `Scan` is the scan that `json.Unmarshal` makes of the text: the JSON value read, or
  the error for text that is not JSON;
* `ParseFloat` is the conversion of a number literal to `float64`;
* `TypeError` is an `UnmarshalTypeError` seen as an `error`. -/
structure Lib (τ F ε Req Resp : Type) where
  Marshal : GoVal τ → Except ε Bytes
  NewRequest : String → String → Bytes → Except ε Req
  Do : Int → Req → Except ε Resp
  ReadAll : Resp → Except ε Bytes
  Scan : Bytes → Except ε Json
  ParseFloat : String → Option F
  TypeError : UnmarshalTypeError → ε

/-- One call `Search` makes, with its arguments, in the order made. -/
inductive Event (τ Req Resp : Type) where
  | marshal (doc : GoVal τ)
  | printf (format : String) (args : List (GoVal τ))
  | newRequest (method url : String) (body : Bytes)
  | doRequest (dialTimeout : Int) (req : Req)
  | readAll (resp : Resp)
  | unmarshal (body : Bytes)
  | close (resp : Resp)

/-- Whether a call is one of the debug echo. -/
def Event.isPrintf {τ Req Resp : Type} : Event τ Req Resp → Bool
  | .printf _ _ => true
  | _ => false

/-- What a call of `Search` did and returned: the calls made, and the pair
`(*EsResponse, error)`, `none` standing for `nil`. -/
structure Run (τ F ε Req Resp : Type) where
  events : List (Event τ Req Resp)
  response : Option (EsResponse F)
  err : Option ε

/-- The library calls of a run: its events without the debug echo. -/
def Run.calls {τ F ε Req Resp : Type} (run : Run τ F ε Req Resp) : List (Event τ Req Resp) :=
  run.events.filter (fun e => !e.isPrintf)

/-- The dial timeouts of the requests a run performed. -/
def Run.dialTimeouts {τ F ε Req Resp : Type} (run : Run τ F ε Req Resp) : List Int :=
  run.events.filterMap fun e =>
    match e with
    | .doRequest t _ => some t
    | _ => none

section Search

variable {τ F ε Req Resp : Type} [Zero F]

/-- The call `json.Unmarshal(body, &esResp)` on the zero-valued `esResp`. -/
def Unmarshal (lib : Lib τ F ε Req Resp) (body : Bytes) : Except ε (EsResponse F) :=
  match lib.Scan body with
  | .error err => .error err
  | .ok j =>
    match decodeResponse lib.ParseFloat j with
    | .error te => .error (lib.TypeError te)
    | .ok esResp => .ok esResp

/-- The method `(c *EsClient) Search`. -/
def Search (lib : Lib τ F ε Req Resp) (c : EsClient) (queryOpts : EsQueryOptions τ) :
    Run τ F ε Req Resp :=
  let searchUrl := c.EsUrl ++ "/_search?pretty=true"
  let evs : List (Event τ Req Resp) := [.marshal (buildQuery queryOpts)]
  match lib.Marshal (buildQuery queryOpts) with
  | .error err => ⟨evs, none, some err⟩
  | .ok jsonQuery =>
    let evs := evs ++
      (if queryOpts.Show then
        [.printf "ES Query: %+v\n" [buildQuery queryOpts],
         .printf "--------------------------\n\n" []]
      else [])
    let evs := evs ++ [.newRequest "POST" searchUrl jsonQuery]
    match lib.NewRequest "POST" searchUrl jsonQuery with
    | .error err => ⟨evs, none, some err⟩
    | .ok req =>
      let timeout := if c.ConnectTimeout = 0 then 3 * Second else c.ConnectTimeout
      let evs := evs ++ [.doRequest timeout req]
      match lib.Do timeout req with
      | .error err => ⟨evs, none, some err⟩
      | .ok resp =>
        let evs := evs ++ [.readAll resp]
        match lib.ReadAll resp with
        | .error err => ⟨evs ++ [.close resp], none, some err⟩
        | .ok body =>
          let evs := evs ++ [.unmarshal body]
          match Unmarshal lib body with
          | .error err => ⟨evs ++ [.close resp], none, some err⟩
          | .ok esResp => ⟨evs ++ [.close resp], some esResp, none⟩

end Search

/-! ## A concrete library and concrete inputs, for the examples -/

/-- A library for the examples: serialization gives `{}`, a request is the triple of
its method, URL and body, the server answers every request with the bytes `text`, and
those scan as `scanned`. Times are numbers and errors are messages. -/
def exampleLib (text : Bytes) (scanned : Except String Json) :
    Lib Nat Float64 String (String × String × Bytes) Bytes where
  Marshal := fun _ => .ok [123, 125]
  NewRequest := fun method url body => .ok (method, url, body)
  Do := fun _ _ => .ok text
  ReadAll := fun resp => .ok resp
  Scan := fun _ => scanned
  ParseFloat := parseFloat64
  TypeError := fun te => "json: cannot unmarshal " ++ te.Value ++ " into Go value of type " ++ te.GoType

/-- The literal `1.0`. -/
def literalOnePointZero : Decimal := ⟨false, [1], [0], none⟩

/-- The hit of the example of the specification, as it scans. -/
def exampleHit : Json :=
  .obj [
    ("_id", .str "1"),
    ("_score", .num literalOnePointZero),
    ("_source", .obj [("msg", .str "error here")]),
    ("highlight", .obj [])]

/-- The `hits` object of the example of the specification, as it scans. -/
def exampleHits : Json :=
  .obj [
    ("hits", .arr [exampleHit]),
    ("total", .num ⟨false, [1], [], none⟩),
    ("max_score", .num literalOnePointZero)]

/-- The response body of the example of the specification, as it scans. -/
def exampleBody : Json :=
  .obj [
    ("hits", exampleHits),
    ("took", .num ⟨false, [5], [], none⟩),
    ("timed_out", .bool false)]

/-- The literal `18014398509481985`, the integer `2 ^ 54 + 1`. -/
def literalOdd : Decimal :=
  ⟨false, [1, 8, 0, 1, 4, 3, 9, 8, 5, 0, 9, 4, 8, 1, 9, 8, 5], [], none⟩

/-- A hit as a query sorted by time gets it back, with a `null` score and no highlight,
whose source holds the integer `2 ^ 54 + 1`. -/
def sortedHit : Json :=
  .obj [
    ("_id", .str "1"),
    ("_score", .null),
    ("_source", .obj [("n", .num literalOdd)])]

/-- A response body with the hit `sortedHit`. -/
def sortedBody : Json :=
  .obj [
    ("took", .num ⟨false, [5], [], none⟩),
    ("timed_out", .bool false),
    ("hits", .obj [
      ("total", .num ⟨false, [1], [], none⟩),
      ("max_score", .null),
      ("hits", .arr [sortedHit])])]

/-- The bytes of the response body of the example of the specification. -/
def exampleText : Bytes :=
  [123, 34, 104, 105, 116, 115, 34, 58, 123, 34, 104, 105, 116, 115, 34, 58, 91, 123, 34,
   95, 105, 100, 34, 58, 34, 49, 34, 44, 34, 95, 115, 99, 111, 114, 101, 34, 58, 49, 46,
   48, 44, 34, 95, 115, 111, 117, 114, 99, 101, 34, 58, 123, 34, 109, 115, 103, 34, 58, 34,
   101, 114, 114, 111, 114, 32, 104, 101, 114, 101, 34, 125, 44, 34, 104, 105, 103, 104,
   108, 105, 103, 104, 116, 34, 58, 123, 125, 125, 93, 44, 34, 116, 111, 116, 97, 108, 34,
   58, 49, 44, 34, 109, 97, 120, 95, 115, 99, 111, 114, 101, 34, 58, 49, 46, 48, 125, 44,
   34, 116, 111, 111, 107, 34, 58, 53, 44, 34, 116, 105, 109, 101, 100, 95, 111, 117, 116,
   34, 58, 102, 97, 108, 115, 101, 125]

/-- The bytes of a text of the response body `sortedBody`. -/
def sortedText : Bytes :=
  [123, 34, 116, 111, 111, 107, 34, 58, 53, 44, 34, 116, 105, 109, 101, 100, 95, 111, 117,
   116, 34, 58, 102, 97, 108, 115, 101, 44, 34, 104, 105, 116, 115, 34, 58, 123, 34, 116,
   111, 116, 97, 108, 34, 58, 49, 44, 34, 109, 97, 120, 95, 115, 99, 111, 114, 101, 34, 58,
   110, 117, 108, 108, 44, 34, 104, 105, 116, 115, 34, 58, 91, 123, 34, 95, 105, 100, 34,
   58, 34, 49, 34, 44, 34, 95, 115, 99, 111, 114, 101, 34, 58, 110, 117, 108, 108, 44, 34,
   95, 115, 111, 117, 114, 99, 101, 34, 58, 123, 34, 110, 34, 58, 49, 56, 48, 49, 52, 51,
   57, 56, 53, 48, 57, 52, 56, 49, 57, 56, 53, 125, 125, 93, 125, 125]

/-- The options of the example of the specification, with times 0 and 1. -/
def exampleOpts (debug : Bool) : EsQueryOptions Nat := ⟨"error", 10, 0, 1, debug⟩

/-! ## Properties of `buildQuery` -/

section BuildQueryProps

variable {τ : Type}

/-- C1: the document has `size` equal to `NumResults`, and the range entry under
`query.filtered.filter.range."@timestamp"` has `gte` equal to `StartTime` and `lte`
equal to `EndTime`, for every value of the options. -/
theorem buildQuery_size_and_range (opts : EsQueryOptions τ) :
    (buildQuery opts).get? "size" = some (.int opts.NumResults)
    ∧ (buildQuery opts).path ["query", "filtered", "filter", "range", "@timestamp", "gte"]
        = some (.time opts.StartTime)
    ∧ (buildQuery opts).path ["query", "filtered", "filter", "range", "@timestamp", "lte"]
        = some (.time opts.EndTime) :=
  ⟨rfl, rfl, rfl⟩

/-- C2: the `sort` entry is the mapping with the one key `@timestamp`, whose value has
the two keys `order` = `asc` and `unmapped_type` = `long`, whatever the options. -/
theorem buildQuery_sort (opts : EsQueryOptions τ) :
    (buildQuery opts).get? "sort"
      = some (.map [("@timestamp", .map [("order", .str "asc"), ("unmapped_type", .str "long")])]) :=
  rfl

/-- C3: under `highlight`, the selector `*` has `fragment_size` 32000 and
`number_of_fragments` 100, `pre_tags` holds the marker `@BEGIN-LOGSEARCH-HIGHLIGHT@` and
`post_tags` the marker `@END-LOGSEARCH-HIGHLIGHT@` (each as a sequence of that one
string), whatever the options. -/
theorem buildQuery_highlight_settings (opts : EsQueryOptions τ) :
    (buildQuery opts).path ["highlight", "fields", "*", "fragment_size"] = some (.int 32000)
    ∧ (buildQuery opts).path ["highlight", "fields", "*", "number_of_fragments"] = some (.int 100)
    ∧ (buildQuery opts).path ["highlight", "pre_tags"] = some (.strs ["@BEGIN-LOGSEARCH-HIGHLIGHT@"])
    ∧ (buildQuery opts).path ["highlight", "post_tags"] = some (.strs ["@END-LOGSEARCH-HIGHLIGHT@"]) :=
  ⟨rfl, rfl, rfl, rfl⟩

/-- C4: the `query` entry is exactly the `filtered` document with the query string
carried as given, `analyze_wildcard` the string `true`, and the range filter on
`@timestamp` from `StartTime` to `EndTime`. -/
theorem buildQuery_query (opts : EsQueryOptions τ) :
    (buildQuery opts).get? "query"
      = some (.map [
          ("filtered", .map [
            ("query", .map [
              ("query_string", .map [
                ("query", .str opts.Query),
                ("analyze_wildcard", .str "true")])]),
            ("filter", .map [
              ("range", .map [
                ("@timestamp", .map [
                  ("gte", .time opts.StartTime),
                  ("lte", .time opts.EndTime)])])])])]) :=
  rfl

/-- C5, as stated, fails: for the options `{Query: "error", NumResults: 10}` the
`force_source` setting is not the boolean `true`. -/
theorem buildQuery_force_source_not_bool :
    (buildQuery (⟨"error", 10, 0, 1, false⟩ : EsQueryOptions Nat)).path
        ["highlight", "fields", "*", "force_source"] ≠ some (.bool true) := by
  intro h
  have h2 : (some (GoVal.str "true") : Option (GoVal Nat)) = some (.bool true) := h
  injection h2 with h3
  exact GoVal.noConfusion h3

/-- C5, amended: the highlight directive has exactly one field selector, `*`, and its
`force_source` setting is the string `true`, the same value as `analyze_wildcard`. -/
theorem buildQuery_force_source_string (opts : EsQueryOptions τ) :
    ((buildQuery opts).path ["highlight", "fields"]).map GoVal.keys = some ["*"]
    ∧ (buildQuery opts).path ["highlight", "fields", "*", "force_source"] = some (.str "true")
    ∧ (buildQuery opts).path ["highlight", "fields", "*", "force_source"]
        = (buildQuery opts).path ["query", "filtered", "query", "query_string", "analyze_wildcard"] :=
  ⟨rfl, rfl, rfl⟩

end BuildQueryProps

/-! ## Properties of `Search` -/

section SearchProps

variable {τ F ε Req Resp : Type} [Zero F]

/-- C7: when serialization succeeds with the bytes `jsonQuery`, the one request `Search`
constructs has method `POST`, URL `c.EsUrl ++ "/_search?pretty=true"` and body
`jsonQuery`, the serialization of `buildQuery opts`; the request performed is the one
so constructed; and the top-level keys of the document are `size`, `sort`, `query` and
`highlight`. -/
theorem Search_request (lib : Lib τ F ε Req Resp) (c : EsClient) (opts : EsQueryOptions τ)
    (jsonQuery : Bytes) (hm : lib.Marshal (buildQuery opts) = .ok jsonQuery) :
    (Search lib c opts).events.head? = some (.marshal (buildQuery opts))
    ∧ Event.newRequest "POST" (c.EsUrl ++ "/_search?pretty=true") jsonQuery
        ∈ (Search lib c opts).events
    ∧ (∀ m u b, Event.newRequest m u b ∈ (Search lib c opts).events →
        m = "POST" ∧ u = c.EsUrl ++ "/_search?pretty=true" ∧ b = jsonQuery)
    ∧ (∀ t req, Event.doRequest t req ∈ (Search lib c opts).events →
        lib.NewRequest "POST" (c.EsUrl ++ "/_search?pretty=true") jsonQuery = .ok req)
    ∧ (buildQuery opts).keys = ["size", "sort", "query", "highlight"] := by
  refine ⟨?_, ?_, ?_, ?_, rfl⟩
  · simp only [Search, hm]
    repeat' split
    all_goals simp
  · simp only [Search, hm]
    repeat' split
    all_goals simp
  · intro m u b
    simp only [Search, hm]
    repeat' split
    all_goals simp
  · intro t req
    simp only [Search, hm]
    repeat' split
    all_goals simp_all

/-- C6: the requests `Search` performs dial with a timeout of 3 seconds (3000000000
nanoseconds) when `ConnectTimeout` is 0, and with `ConnectTimeout` itself when it is not
0; a run with `ConnectTimeout` 0 and a run with `ConnectTimeout` of 3 seconds are the
same run. -/
theorem Search_dial_timeout (lib : Lib τ F ε Req Resp) (c : EsClient)
    (opts : EsQueryOptions τ) (jsonQuery : Bytes) (req : Req)
    (hm : lib.Marshal (buildQuery opts) = .ok jsonQuery)
    (hr : lib.NewRequest "POST" (c.EsUrl ++ "/_search?pretty=true") jsonQuery = .ok req) :
    (c.ConnectTimeout = 0 → (Search lib c opts).dialTimeouts = [3000000000])
    ∧ (c.ConnectTimeout ≠ 0 → (Search lib c opts).dialTimeouts = [c.ConnectTimeout])
    ∧ Search lib { c with ConnectTimeout := 0 } opts
        = Search lib { c with ConnectTimeout := 3 * Second } opts := by
  refine ⟨?_, ?_, ?_⟩
  · intro h0
    simp only [Search, hm, hr, Run.dialTimeouts, if_pos h0]
    repeat' split
    all_goals simp [Second]
  · intro h0
    simp only [Search, hm, hr, Run.dialTimeouts, if_neg h0]
    repeat' split
    all_goals simp
  · simp [Search, Second]

/-- C6, an instance: with the example library, a client without a timeout dials with
3 seconds. -/
theorem Search_dial_timeout_witness :
    (Search (exampleLib [] (.ok (.obj []))) ⟨"http://localhost:9200", 0⟩
        (exampleOpts false)).dialTimeouts = [3000000000] :=
  (Search_dial_timeout (exampleLib [] (.ok (.obj []))) ⟨"http://localhost:9200", 0⟩
    (exampleOpts false) [123, 125]
    ("POST", "http://localhost:9200/_search?pretty=true", [123, 125]) rfl rfl).1 rfl

/-- C7, an instance: with the example library and the base URL
`http://localhost:9200/`, the request goes to `http://localhost:9200//_search?pretty=true`. -/
theorem Search_request_witness :
    Event.newRequest "POST" ("http://localhost:9200/" ++ "/_search?pretty=true") [123, 125]
      ∈ (Search (exampleLib [] (.ok (.obj []))) ⟨"http://localhost:9200/", 0⟩
          (exampleOpts false)).events :=
  (Search_request (exampleLib [] (.ok (.obj []))) ⟨"http://localhost:9200/", 0⟩
    (exampleOpts false) [123, 125] rfl).2.1

/-- C10: two option values that agree on `Query`, `NumResults`, `StartTime` and
`EndTime` give the same document, and with any library and client the same library
calls with the same arguments, hence the same request, and the same result: `Show`
changes only the debug echo. -/
theorem buildQuery_ignores_Show (o1 o2 : EsQueryOptions τ)
    (hq : o1.Query = o2.Query) (hn : o1.NumResults = o2.NumResults)
    (hs : o1.StartTime = o2.StartTime) (he : o1.EndTime = o2.EndTime) :
    buildQuery o1 = buildQuery o2
    ∧ ∀ (lib : Lib τ F ε Req Resp) (c : EsClient),
        (Search lib c o1).calls = (Search lib c o2).calls
        ∧ (Search lib c o1).response = (Search lib c o2).response
        ∧ (Search lib c o1).err = (Search lib c o2).err := by
  have hb : buildQuery o1 = buildQuery o2 := by
    simp only [buildQuery, hq, hn, hs, he]
  refine ⟨hb, fun lib c => ?_⟩
  simp only [Search, hb, Run.calls]
  repeat' split
  all_goals simp_all [Event.isPrintf]

/-- C10, an instance: the example options with and without the debug flag give the
same document. -/
theorem buildQuery_ignores_Show_witness :
    buildQuery (exampleOpts true) = buildQuery (exampleOpts false) :=
  (@buildQuery_ignores_Show Nat ℚ String Unit Unit _
    (exampleOpts true) (exampleOpts false) rfl rfl rfl rfl).1

/-- C8: `Search` runs its five steps in order (serialize, construct the request,
perform it, read the body, decode the body) and stops at the first that fails: it then
returns no response and that step's error as the library gave it, and the steps after it
are not performed. When all five succeed it returns the decoded response and no error.
A response is absent exactly when an error is present, and a body that is not JSON
makes the decoding step fail with the error of the scan. -/
theorem Search_first_failure (lib : Lib τ F ε Req Resp) (c : EsClient)
    (opts : EsQueryOptions τ) :
    (∀ e, lib.Marshal (buildQuery opts) = .error e →
      Search lib c opts = ⟨[.marshal (buildQuery opts)], none, some e⟩)
    ∧ (∀ j, lib.Marshal (buildQuery opts) = .ok j →
      (∀ e, lib.NewRequest "POST" (c.EsUrl ++ "/_search?pretty=true") j = .error e →
        (Search lib c opts).response = none ∧ (Search lib c opts).err = some e
        ∧ (Search lib c opts).calls
            = [.marshal (buildQuery opts),
               .newRequest "POST" (c.EsUrl ++ "/_search?pretty=true") j])
      ∧ (∀ req, lib.NewRequest "POST" (c.EsUrl ++ "/_search?pretty=true") j = .ok req →
        (∀ e, lib.Do (if c.ConnectTimeout = 0 then 3 * Second else c.ConnectTimeout) req
            = .error e →
          (Search lib c opts).response = none ∧ (Search lib c opts).err = some e
          ∧ (Search lib c opts).calls
              = [.marshal (buildQuery opts),
                 .newRequest "POST" (c.EsUrl ++ "/_search?pretty=true") j,
                 .doRequest (if c.ConnectTimeout = 0 then 3 * Second else c.ConnectTimeout) req])
        ∧ (∀ resp, lib.Do (if c.ConnectTimeout = 0 then 3 * Second else c.ConnectTimeout) req
            = .ok resp →
          (∀ e, lib.ReadAll resp = .error e →
            (Search lib c opts).response = none ∧ (Search lib c opts).err = some e
            ∧ (Search lib c opts).calls
                = [.marshal (buildQuery opts),
                   .newRequest "POST" (c.EsUrl ++ "/_search?pretty=true") j,
                   .doRequest (if c.ConnectTimeout = 0 then 3 * Second else c.ConnectTimeout) req,
                   .readAll resp, .close resp])
          ∧ (∀ body, lib.ReadAll resp = .ok body →
            (∀ e, Unmarshal lib body = .error e →
              (Search lib c opts).response = none ∧ (Search lib c opts).err = some e
              ∧ (Search lib c opts).calls
                  = [.marshal (buildQuery opts),
                     .newRequest "POST" (c.EsUrl ++ "/_search?pretty=true") j,
                     .doRequest (if c.ConnectTimeout = 0 then 3 * Second else c.ConnectTimeout) req,
                     .readAll resp, .unmarshal body, .close resp])
            ∧ (∀ r, Unmarshal lib body = .ok r →
              (Search lib c opts).response = some r ∧ (Search lib c opts).err = none
              ∧ (Search lib c opts).calls
                  = [.marshal (buildQuery opts),
                     .newRequest "POST" (c.EsUrl ++ "/_search?pretty=true") j,
                     .doRequest (if c.ConnectTimeout = 0 then 3 * Second else c.ConnectTimeout) req,
                     .readAll resp, .unmarshal body, .close resp])))))
    ∧ ((Search lib c opts).response = none ↔ (Search lib c opts).err ≠ none)
    ∧ (∀ body e, lib.Scan body = .error e → Unmarshal lib body = .error e) := by
  refine ⟨?_, ?_, ?_, ?_⟩
  · intro e he
    simp only [Search, he]
  · intro j hj
    refine ⟨?_, fun req hreq => ⟨?_, fun resp hresp => ⟨?_, fun body hbody => ⟨?_, ?_⟩⟩⟩⟩
    · intro e he
      simp only [Search, hj, he, Run.calls]
      split <;> simp [Event.isPrintf]
    · intro e he
      simp only [Search, hj, hreq, he, Run.calls]
      split <;> simp [Event.isPrintf]
    · intro e he
      simp only [Search, hj, hreq, hresp, he, Run.calls]
      split <;> simp [Event.isPrintf]
    · intro e he
      simp only [Search, hj, hreq, hresp, hbody, he, Run.calls]
      split <;> simp [Event.isPrintf]
    · intro r hr
      simp only [Search, hj, hreq, hresp, hbody, hr, Run.calls]
      split <;> simp [Event.isPrintf]
  · simp only [Search]
    repeat' split
    all_goals simp
  · intro body e he
    simp only [Unmarshal, he]

/-- C8, an instance: with the example library and a server that answers `oops`, the
scan of the body fails and `Search` returns no response and the error of the scan,
after all five steps. -/
theorem Search_first_failure_witness :
    (Search (exampleLib [111, 111, 112, 115]
        (.error "invalid character 'o' looking for beginning of value"))
      ⟨"http://localhost:9200", 0⟩ (exampleOpts true)).response = none
    ∧ (Search (exampleLib [111, 111, 112, 115]
        (.error "invalid character 'o' looking for beginning of value"))
      ⟨"http://localhost:9200", 0⟩ (exampleOpts true)).err
      = some "invalid character 'o' looking for beginning of value" :=
  have h := ((((((((Search_first_failure (exampleLib [111, 111, 112, 115]
        (.error "invalid character 'o' looking for beginning of value"))
      ⟨"http://localhost:9200", 0⟩ (exampleOpts true)).2.1
      [123, 125] rfl).2
      ("POST", "http://localhost:9200/_search?pretty=true", [123, 125]) rfl).2
      [111, 111, 112, 115] rfl).2
      [111, 111, 112, 115] rfl).1
      "invalid character 'o' looking for beginning of value" rfl)))
  ⟨h.1, h.2.1⟩

end SearchProps


/-! ## Properties of the conversions -/

section ConversionProps

theorem findExp_ge (q : ℚ) : ∀ (fuel : Nat) (e : Int), e ≤ findExp q fuel e
  | 0, e => le_refl e
  | fuel + 1, e => by
    simp only [findExp]
    split
    · exact le_trans (by omega) (findExp_ge q fuel (e + 1))
    · exact le_refl e

theorem findExp_le (q : ℚ) : ∀ (fuel : Nat) (e : Int), findExp q fuel e ≤ e + fuel
  | 0, e => by simp [findExp]
  | fuel + 1, e => by
    simp only [findExp]
    split
    · have := findExp_le q fuel (e + 1)
      push_cast
      omega
    · push_cast
      omega

theorem findExp_lower (q : ℚ) (e0 : Int) : ∀ (fuel : Nat) (e : Int),
    (e = e0 ∨ (2 : ℚ) ^ 52 * (2 : ℚ) ^ e ≤ q) →
    (findExp q fuel e = e0 ∨ (2 : ℚ) ^ 52 * (2 : ℚ) ^ findExp q fuel e ≤ q)
  | 0, e, h => by simpa [findExp] using h
  | fuel + 1, e, h => by
    simp only [findExp]
    split
    · rename_i hle
      apply findExp_lower q e0 fuel (e + 1)
      right
      rw [zpow_add_one₀ (by norm_num : (2 : ℚ) ≠ 0)]
      calc (2 : ℚ) ^ 52 * ((2 : ℚ) ^ e * 2) = (2 : ℚ) ^ 53 * (2 : ℚ) ^ e := by ring
        _ ≤ q := hle
    · exact h

theorem findExp_upper (q : ℚ) : ∀ (fuel : Nat) (e : Int),
    findExp q fuel e < e + fuel → q < (2 : ℚ) ^ 53 * (2 : ℚ) ^ findExp q fuel e
  | 0, e, h => by simp [findExp] at h
  | fuel + 1, e, h => by
    simp only [findExp] at h ⊢
    split
    · rename_i hle
      simp only [hle, if_true] at h
      apply findExp_upper q fuel (e + 1)
      push_cast at h
      omega
    · rename_i hle
      exact not_le.mp hle

theorem findExp_le_of_lt (q : ℚ) (E : Int) (hq : q < (2 : ℚ) ^ 53 * (2 : ℚ) ^ E) :
    ∀ (fuel : Nat) (e : Int), e ≤ E → findExp q fuel e ≤ E
  | 0, e, h => by simpa [findExp] using h
  | fuel + 1, e, h => by
    simp only [findExp]
    split
    · rename_i hle
      apply findExp_le_of_lt q E hq fuel (e + 1)
      by_contra hcon
      have heq : e = E := by omega
      subst heq
      exact absurd hle (not_le.mpr hq)
    · exact h

theorem roundHalfEven_nearest (t : ℚ) (n : Int) :
    |(roundHalfEven t : ℚ) - t| ≤ |(n : ℚ) - t| := by
  have h1 := Int.floor_le t
  have h2 := Int.lt_floor_add_one t
  have key : ∀ k : Int, (k : ℚ) ≤ t → t < k + 1 → (n : ℚ) ≤ k ∨ (k : ℚ) + 1 ≤ n := by
    intro k _ _
    rcases le_or_lt n k with h | h
    · left; exact_mod_cast h
    · right; exact_mod_cast h
  rcases key ⌊t⌋ h1 h2 with hn | hn
  · -- n ≤ floor
    have hd : |(n : ℚ) - t| = t - n := by
      rw [abs_sub_comm, abs_of_nonneg]; linarith
    rw [hd]
    simp only [roundHalfEven]
    split_ifs with c1 c2 c3
    · rw [abs_sub_comm, abs_of_nonneg (by linarith)]; linarith
    · push_cast; rw [abs_of_nonneg (by linarith)]; linarith
    · rw [abs_sub_comm, abs_of_nonneg (by linarith)]; linarith
    · push_cast; rw [abs_of_nonneg (by linarith)]; linarith
  · have hd : |(n : ℚ) - t| = n - t := by
      rw [abs_of_nonneg]; linarith
    rw [hd]
    simp only [roundHalfEven]
    split_ifs with c1 c2 c3
    · rw [abs_sub_comm, abs_of_nonneg (by linarith)]; linarith
    · push_cast; rw [abs_of_nonneg (by linarith)]; linarith
    · rw [abs_sub_comm, abs_of_nonneg (by linarith)]; linarith
    · push_cast; rw [abs_of_nonneg (by linarith)]; linarith

theorem roundHalfEven_floor (t : ℚ) : roundHalfEven t = ⌊t⌋ ∨ roundHalfEven t = ⌊t⌋ + 1 := by
  simp only [roundHalfEven]
  split_ifs <;> simp


theorem roundHalfEven_nonneg (t : ℚ) (ht : 0 ≤ t) : 0 ≤ roundHalfEven t := by
  have hf : 0 ≤ ⌊t⌋ := Int.floor_nonneg.mpr ht
  rcases roundHalfEven_floor t with h | h <;> omega

/-- The magnitude `roundFloat64` computes is nearest to `q` among the magnitudes of
`float64` values. -/
theorem magnitude_nearest (q : ℚ) (e : Int)
    (hlow : e = -1074 ∨ (2 : ℚ) ^ 52 * (2 : ℚ) ^ e ≤ q)
    (y : Float64) (hy : y.Canonical) :
    |(roundHalfEven (q / (2 : ℚ) ^ e) : ℚ) * (2 : ℚ) ^ e - q|
      ≤ |(y.m : ℚ) * (2 : ℚ) ^ y.e - q| := by
  have hP : (0 : ℚ) < (2 : ℚ) ^ e := by positivity
  set t := q / (2 : ℚ) ^ e with ht
  have hq : q = t * (2 : ℚ) ^ e := by
    rw [ht]; field_simp
  have hscale : ∀ n : ℚ, |n * (2 : ℚ) ^ e - q| = |n - t| * (2 : ℚ) ^ e := by
    intro n
    rw [hq, ← sub_mul, abs_mul, abs_of_pos hP]
  rw [hscale]
  obtain ⟨hm, hge, _, _⟩ := hy
  rcases le_or_lt e y.e with hcase | hcase
  · -- the value of `y` is a multiple of `2 ^ e`
    obtain ⟨d, hd⟩ : ∃ d : Nat, y.e = e + d := ⟨(y.e - e).toNat, by omega⟩
    have hY : (y.m : ℚ) * (2 : ℚ) ^ y.e = ((y.m * 2 ^ d : Nat) : ℚ) * (2 : ℚ) ^ e := by
      rw [hd, zpow_add₀ (by norm_num : (2 : ℚ) ≠ 0), zpow_natCast]
      push_cast
      ring
    rw [hY, hscale]
    have := roundHalfEven_nearest t ((y.m * 2 ^ d : Nat) : Int)
    have h2 : (((y.m * 2 ^ d : Nat) : Int) : ℚ) = ((y.m * 2 ^ d : Nat) : ℚ) := by
      push_cast; ring
    rw [h2] at this
    exact mul_le_mul_of_nonneg_right this (le_of_lt hP)
  · -- `y` lies below `2 ^ 52 * 2 ^ e ≤ q`
    have hne : e ≠ -1074 := by omega
    have hlow2 : (2 : ℚ) ^ 52 * (2 : ℚ) ^ e ≤ q := by
      rcases hlow with h | h
      · exact absurd h hne
      · exact h
    have hYlt : (y.m : ℚ) * (2 : ℚ) ^ y.e ≤ (2 : ℚ) ^ 52 * (2 : ℚ) ^ e := by
      obtain ⟨d, hd⟩ : ∃ d : Nat, e = y.e + 1 + d := ⟨(e - y.e - 1).toNat, by omega⟩
      have hm' : (y.m : ℚ) ≤ (2 : ℚ) ^ 53 := by
        have : (y.m : ℚ) < ((2 ^ 53 : Nat) : ℚ) := by exact_mod_cast hm
        push_cast at this
        exact le_of_lt this
      have hy0 : (0 : ℚ) < (2 : ℚ) ^ y.e := by positivity
      rw [hd, zpow_add₀ (by norm_num : (2 : ℚ) ≠ 0), zpow_add_one₀ (by norm_num : (2 : ℚ) ≠ 0),
        zpow_natCast]
      have hd1 : (1 : ℚ) ≤ (2 : ℚ) ^ d := one_le_pow₀ (by norm_num)
      calc (y.m : ℚ) * (2 : ℚ) ^ y.e ≤ (2 : ℚ) ^ 53 * (2 : ℚ) ^ y.e :=
            mul_le_mul_of_nonneg_right hm' (le_of_lt hy0)
        _ = (2 : ℚ) ^ 52 * ((2 : ℚ) ^ y.e * 2 * 1) := by ring
        _ ≤ (2 : ℚ) ^ 52 * ((2 : ℚ) ^ y.e * 2 * (2 : ℚ) ^ d) := by
            apply mul_le_mul_of_nonneg_left _ (by positivity)
            apply mul_le_mul_of_nonneg_left hd1 (by positivity)
    have hnear := roundHalfEven_nearest t ((2 : Int) ^ 52)
    have h52 : (((2 : Int) ^ 52 : Int) : ℚ) = (2 : ℚ) ^ 52 := by push_cast; ring
    rw [h52] at hnear
    have ht52 : (2 : ℚ) ^ 52 ≤ t := by
      rw [ht, le_div_iff₀ hP]; exact hlow2
    have h1 : |(2 : ℚ) ^ 52 - t| * (2 : ℚ) ^ e = q - (2 : ℚ) ^ 52 * (2 : ℚ) ^ e := by
      rw [abs_sub_comm, abs_of_nonneg (by linarith), hq]; ring
    have h2 : |(y.m : ℚ) * (2 : ℚ) ^ y.e - q| = q - (y.m : ℚ) * (2 : ℚ) ^ y.e := by
      rw [abs_sub_comm, abs_of_nonneg (by linarith)]
    rw [h2]
    calc |(roundHalfEven t : ℚ) - t| * (2 : ℚ) ^ e ≤ |(2 : ℚ) ^ 52 - t| * (2 : ℚ) ^ e :=
          mul_le_mul_of_nonneg_right hnear (le_of_lt hP)
      _ = q - (2 : ℚ) ^ 52 * (2 : ℚ) ^ e := h1
      _ ≤ q - (y.m : ℚ) * (2 : ℚ) ^ y.e := by linarith


theorem Float64.zero_canonical : (0 : Float64).Canonical := by
  show (⟨false, 0, -1074⟩ : Float64).Canonical
  simp [Float64.Canonical]

theorem roundHalfEven_lt (t : ℚ) (N : Int) (h : t < (N : ℚ) - 1 / 2) : roundHalfEven t < N := by
  have h1 := Int.floor_le t
  simp only [roundHalfEven]
  split_ifs with c1 c2 c3
  · exact_mod_cast (show ((⌊t⌋ : Int) : ℚ) < N by linarith)
  · have : ((⌊t⌋ : Int) : ℚ) + 1 < N := by linarith
    exact_mod_cast this
  · exact_mod_cast (show ((⌊t⌋ : Int) : ℚ) < N by linarith)
  · have : ((⌊t⌋ : Int) : ℚ) + 1 < N := by linarith
    exact_mod_cast this

theorem roundHalfEven_tie (t : ℚ) :
    |(roundHalfEven t : ℚ) - t| < 1 / 2 ∨ roundHalfEven t % 2 = 0 := by
  have h1 := Int.floor_le t
  have h2 := Int.lt_floor_add_one t
  simp only [roundHalfEven]
  split_ifs with c1 c2 c3
  · left
    rw [abs_sub_comm, abs_of_nonneg (by linarith)]
    exact c1
  · left
    push_cast
    rw [abs_of_nonneg (by linarith)]
    linarith
  · right; exact c3
  · right; omega

theorem roundHalfEven_unique (t : ℚ) (n : Int) (hne : n ≠ roundHalfEven t)
    (hd : |(n : ℚ) - t| = |(roundHalfEven t : ℚ) - t|) : roundHalfEven t % 2 = 0 := by
  rcases roundHalfEven_tie t with h | h
  · exfalso
    have h3 : |(n : ℚ) - (roundHalfEven t : ℚ)| < 1 := by
      have := abs_sub_le (n : ℚ) t (roundHalfEven t : ℚ)
      rw [abs_sub_comm t] at this
      rw [hd] at this
      linarith
    have h4 : |n - roundHalfEven t| < 1 := by exact_mod_cast h3
    have h5 : n - roundHalfEven t = 0 := Int.abs_lt_one_iff.mp h4
    omega
  · exact h

/-- A magnitude of a `float64` as near to `q` as the magnitude `roundFloat64` computes,
and another one, makes the integer computed even. -/
theorem magnitude_tie (q : ℚ) (e : Int)
    (hlow : e = -1074 ∨ (2 : ℚ) ^ 52 * (2 : ℚ) ^ e ≤ q)
    (y : Float64) (hy : y.Canonical)
    (hd : |(y.m : ℚ) * (2 : ℚ) ^ y.e - q|
      = |(roundHalfEven (q / (2 : ℚ) ^ e) : ℚ) * (2 : ℚ) ^ e - q|)
    (hne : (y.m : ℚ) * (2 : ℚ) ^ y.e ≠ (roundHalfEven (q / (2 : ℚ) ^ e) : ℚ) * (2 : ℚ) ^ e) :
    roundHalfEven (q / (2 : ℚ) ^ e) % 2 = 0 := by
  have hP : (0 : ℚ) < (2 : ℚ) ^ e := by positivity
  set t := q / (2 : ℚ) ^ e with ht
  have hq : q = t * (2 : ℚ) ^ e := by
    rw [ht]; field_simp
  have hscale : ∀ n : ℚ, |n * (2 : ℚ) ^ e - q| = |n - t| * (2 : ℚ) ^ e := by
    intro n
    rw [hq, ← sub_mul, abs_mul, abs_of_pos hP]
  -- an integer `n` with `n * 2 ^ e` the magnitude of `y`
  have hint : ∀ n : Int, (y.m : ℚ) * (2 : ℚ) ^ y.e = (n : ℚ) * (2 : ℚ) ^ e →
      roundHalfEven t % 2 = 0 := by
    intro n hn
    rw [hn, hscale, hscale] at hd
    have hd2 : |(n : ℚ) - t| = |(roundHalfEven t : ℚ) - t| :=
      mul_right_cancel₀ (ne_of_gt hP) hd
    apply roundHalfEven_unique t n _ hd2
    intro heq
    apply hne
    rw [hn, heq]
  obtain ⟨hm, hge, _, _⟩ := hy
  rcases le_or_lt e y.e with hcase | hcase
  · obtain ⟨d, hd'⟩ : ∃ d : Nat, y.e = e + d := ⟨(y.e - e).toNat, by omega⟩
    apply hint ((y.m * 2 ^ d : Nat) : Int)
    rw [hd', zpow_add₀ (by norm_num : (2 : ℚ) ≠ 0), zpow_natCast]
    push_cast
    ring
  · have hne' : e ≠ -1074 := by omega
    have hlow2 : (2 : ℚ) ^ 52 * (2 : ℚ) ^ e ≤ q := by
      rcases hlow with h | h
      · exact absurd h hne'
      · exact h
    have hYle : (y.m : ℚ) * (2 : ℚ) ^ y.e ≤ (2 : ℚ) ^ 52 * (2 : ℚ) ^ e := by
      obtain ⟨d, hd'⟩ : ∃ d : Nat, e = y.e + 1 + d := ⟨(e - y.e - 1).toNat, by omega⟩
      have hm' : (y.m : ℚ) ≤ (2 : ℚ) ^ 53 := by
        have : (y.m : ℚ) < ((2 ^ 53 : Nat) : ℚ) := by exact_mod_cast hm
        push_cast at this
        exact le_of_lt this
      have hy0 : (0 : ℚ) < (2 : ℚ) ^ y.e := by positivity
      rw [hd', zpow_add₀ (by norm_num : (2 : ℚ) ≠ 0), zpow_add_one₀ (by norm_num : (2 : ℚ) ≠ 0),
        zpow_natCast]
      have hd1 : (1 : ℚ) ≤ (2 : ℚ) ^ d := one_le_pow₀ (by norm_num)
      calc (y.m : ℚ) * (2 : ℚ) ^ y.e ≤ (2 : ℚ) ^ 53 * (2 : ℚ) ^ y.e :=
            mul_le_mul_of_nonneg_right hm' (le_of_lt hy0)
        _ = (2 : ℚ) ^ 52 * ((2 : ℚ) ^ y.e * 2 * 1) := by ring
        _ ≤ (2 : ℚ) ^ 52 * ((2 : ℚ) ^ y.e * 2 * (2 : ℚ) ^ d) := by
            apply mul_le_mul_of_nonneg_left _ (by positivity)
            apply mul_le_mul_of_nonneg_left hd1 (by positivity)
    have hnear := roundHalfEven_nearest t ((2 : Int) ^ 52)
    have h52 : (((2 : Int) ^ 52 : Int) : ℚ) = (2 : ℚ) ^ 52 := by push_cast; ring
    have hnear2 : |(roundHalfEven t : ℚ) * (2 : ℚ) ^ e - q|
        ≤ |(2 : ℚ) ^ 52 * (2 : ℚ) ^ e - q| := by
      rw [hscale, hscale, ← h52]
      exact mul_le_mul_of_nonneg_right hnear (le_of_lt hP)
    have h1 : |(2 : ℚ) ^ 52 * (2 : ℚ) ^ e - q| = q - (2 : ℚ) ^ 52 * (2 : ℚ) ^ e := by
      rw [abs_sub_comm, abs_of_nonneg (by linarith)]
    have h2 : |(y.m : ℚ) * (2 : ℚ) ^ y.e - q| = q - (y.m : ℚ) * (2 : ℚ) ^ y.e := by
      rw [abs_sub_comm, abs_of_nonneg (by linarith)]
    have heq : (y.m : ℚ) * (2 : ℚ) ^ y.e = (2 : ℚ) ^ 52 * (2 : ℚ) ^ e := by
      rw [← hd, h2, h1] at hnear2
      linarith
    apply hint ((2 : Int) ^ 52)
    rw [heq, h52]

/-- What `roundFloat64` returns for a magnitude `q`: a `float64` value of the given
sign whose magnitude is the integer nearest to `q / 2 ^ e`, times `2 ^ e`, for the
exponent `e` found; its significand is even when that integer is. -/
theorem roundFloat64_magnitude (neg : Bool) (q : ℚ) (hq : 0 ≤ q) (x : Float64)
    (h : roundFloat64 neg q = some x) :
    x.neg = neg ∧ x.Canonical
      ∧ (x.m : ℚ) * (2 : ℚ) ^ x.e
        = (roundHalfEven (q / (2 : ℚ) ^ findExp q 2046 (-1074)) : ℚ)
            * (2 : ℚ) ^ findExp q 2046 (-1074)
      ∧ (roundHalfEven (q / (2 : ℚ) ^ findExp q 2046 (-1074)) % 2 = 0 → x.m % 2 = 0) := by
  have hP : (0 : ℚ) < (2 : ℚ) ^ findExp q 2046 (-1074) := by positivity
  have hge := findExp_ge q 2046 (-1074)
  have hlow := findExp_lower q (-1074) 2046 (-1074) (Or.inl rfl)
  have ht0 : 0 ≤ q / (2 : ℚ) ^ findExp q 2046 (-1074) := div_nonneg hq (le_of_lt hP)
  have hM0 := roundHalfEven_nonneg _ ht0
  have hcast : (((roundHalfEven (q / (2 : ℚ) ^ findExp q 2046 (-1074))).toNat : Nat) : ℚ)
      = (roundHalfEven (q / (2 : ℚ) ^ findExp q 2046 (-1074)) : ℚ) := by
    have := Int.toNat_of_nonneg hM0
    exact_mod_cast congrArg (fun z : Int => (z : ℚ)) this
  simp only [roundFloat64] at h
  split_ifs at h with c1 c2 c3
  · cases Option.some.inj h
    refine ⟨rfl, ⟨by norm_num, by dsimp only; omega, c2, Or.inr (le_refl _)⟩, ?_, ?_⟩
    · rw [← hcast, c1, zpow_add_one₀ (by norm_num : (2 : ℚ) ≠ 0)]
      push_cast
      ring
    · intro _
      norm_num
  · cases Option.some.inj h
    refine ⟨rfl, ⟨?_, hge, c3, ?_⟩, by rw [hcast], ?_⟩
    · have hup := findExp_upper q 2046 (-1074) (by push_cast; omega)
      have ht : q / (2 : ℚ) ^ findExp q 2046 (-1074) < ((2 : Int) ^ 53 : Int) := by
        rw [div_lt_iff₀ hP]; push_cast; exact hup
      have hfl : ⌊q / (2 : ℚ) ^ findExp q 2046 (-1074)⌋ < (2 : Int) ^ 53 :=
        Int.floor_lt.mpr ht
      dsimp only
      rcases roundHalfEven_floor (q / (2 : ℚ) ^ findExp q 2046 (-1074)) with hr | hr
      · omega
      · omega
    · rcases hlow with hl | hl
      · exact Or.inl hl
      · right
        have ht : (((2 : Int) ^ 52 : Int) : ℚ) ≤ q / (2 : ℚ) ^ findExp q 2046 (-1074) := by
          rw [le_div_iff₀ hP]; push_cast; exact hl
        have hfl : (2 : Int) ^ 52 ≤ ⌊q / (2 : ℚ) ^ findExp q 2046 (-1074)⌋ :=
          Int.le_floor.mpr ht
        dsimp only
        rcases roundHalfEven_floor (q / (2 : ℚ) ^ findExp q 2046 (-1074)) with hr | hr
        · omega
        · omega
    · intro hev
      dsimp only
      omega

/-- What `roundFloat64` returns for a magnitude `q` is a `float64` value of the given
sign, of magnitude nearest to `q`, of even significand at a tie. -/
theorem roundFloat64_spec (neg : Bool) (q : ℚ) (hq : 0 ≤ q) (x : Float64)
    (h : roundFloat64 neg q = some x) :
    x.neg = neg ∧ x.IsNearest (if neg then -q else q)
      ∧ x.TieEven (if neg then -q else q) := by
  have hlow := findExp_lower q (-1074) 2046 (-1074) (Or.inl rfl)
  obtain ⟨hneg, hcan, hval, heven⟩ := roundFloat64_magnitude neg q hq x h
  have hzero := magnitude_nearest q _ hlow 0 Float64.zero_canonical
  rw [← hval] at hzero
  have hz : |((0 : Float64).m : ℚ) * (2 : ℚ) ^ (0 : Float64).e - q| = q := by
    show |(((0 : Nat) : ℚ)) * (2 : ℚ) ^ (-1074 : Int) - q| = q
    rw [Nat.cast_zero, zero_mul, zero_sub, abs_neg, abs_of_nonneg hq]
  rw [hz] at hzero
  -- the distance of `x`, and of a `float64` `y`, from the number, by magnitudes
  have hdx : |x.toRat - (if neg then -q else q)| = |(x.m : ℚ) * (2 : ℚ) ^ x.e - q| := by
    simp only [Float64.toRat, hneg]
    cases neg
    · simp
    · simp only [if_true]
      rw [← abs_neg]
      ring_nf
  have hdy : ∀ y : Float64, y.neg = neg →
      |y.toRat - (if neg then -q else q)| = |(y.m : ℚ) * (2 : ℚ) ^ y.e - q| := by
    intro y hyn
    simp only [Float64.toRat, hyn]
    cases neg
    · simp
    · simp only [if_true]
      rw [← abs_neg]
      ring_nf
  have hdy' : ∀ y : Float64, y.neg ≠ neg →
      |y.toRat - (if neg then -q else q)| = (y.m : ℚ) * (2 : ℚ) ^ y.e + q := by
    intro y hyn
    have hY0 : (0 : ℚ) ≤ (y.m : ℚ) * (2 : ℚ) ^ y.e := by positivity
    simp only [Float64.toRat]
    cases neg <;> cases hb : y.neg <;> simp only [hb] at hyn
    · exact absurd rfl hyn
    · simp only [if_true, Bool.false_eq_true, if_false]
      rw [abs_sub_comm, abs_of_nonneg (by linarith)]
      ring
    · simp only [if_true, Bool.false_eq_true, if_false]
      rw [abs_of_nonneg (by linarith)]
      ring
    · exact absurd rfl hyn
  refine ⟨hneg, ⟨hcan, fun y hy => ?_⟩, fun y hy hd hne => ?_⟩
  · rw [hdx]
    by_cases hyn : y.neg = neg
    · rw [hdy y hyn, hval]
      exact magnitude_nearest q _ hlow y hy
    · rw [hdy' y hyn]
      have hY0 : (0 : ℚ) ≤ (y.m : ℚ) * (2 : ℚ) ^ y.e := by positivity
      linarith
  · apply heven
    rw [hdx] at hd
    by_cases hyn : y.neg = neg
    · rw [hdy y hyn, hval] at hd
      apply magnitude_tie q _ hlow y hy hd
      intro heq
      apply hne
      simp only [Float64.toRat, hyn, hneg]
      rw [mul_assoc, mul_assoc, heq, ← hval]
    · rw [hdy' y hyn] at hd
      have hY0 : (0 : ℚ) ≤ (y.m : ℚ) * (2 : ℚ) ^ y.e := by positivity
      have hY : (y.m : ℚ) * (2 : ℚ) ^ y.e = 0 := by linarith
      have hyz : y.toRat = 0 := by
        simp only [Float64.toRat]
        rw [mul_assoc, hY, mul_zero]
      have hxq : |(x.m : ℚ) * (2 : ℚ) ^ x.e - q| = q := by
        rw [← hd, hY, zero_add]
      apply magnitude_tie q _ hlow 0 Float64.zero_canonical
      · rw [hz, ← hval, hxq]
      · intro heq
        apply hne
        rw [hyz]
        simp only [Float64.toRat]
        rw [mul_assoc, hval, ← heq]
        show (0 : ℚ) = _ * ((((0 : Nat) : ℚ)) * (2 : ℚ) ^ (-1074 : Int))
        rw [Nat.cast_zero, zero_mul, mul_zero]

/-- A magnitude below `2 ^ 1024 - 2 ^ 970`, half a step above the largest `float64`,
converts. -/
theorem roundFloat64_isSome (neg : Bool) (q : ℚ) (hq : 0 ≤ q)
    (hlt : q < (2 : ℚ) ^ 1024 - (2 : ℚ) ^ 970) : ∃ x, roundFloat64 neg q = some x := by
  have hP : (0 : ℚ) < (2 : ℚ) ^ findExp q 2046 (-1074) := by positivity
  have hE : findExp q 2046 (-1074) ≤ 971 := by
    apply findExp_le_of_lt q 971 _ 2046 (-1074) (by norm_num)
    have : (2 : ℚ) ^ 53 * (2 : ℚ) ^ (971 : Int) = (2 : ℚ) ^ 1024 := by
      rw [show (971 : Int) = ((971 : Nat) : Int) by norm_num, zpow_natCast, ← pow_add]
    rw [this]
    have : (0 : ℚ) < (2 : ℚ) ^ 970 := by positivity
    linarith
  simp only [roundFloat64]
  split_ifs with c1 c2
  · exact ⟨_, rfl⟩
  · exfalso
    have he : findExp q 2046 (-1074) = 971 := by omega
    rw [he] at c1
    have ht : q / (2 : ℚ) ^ (971 : Int) < (((2 : Int) ^ 53 : Int) : ℚ) - 1 / 2 := by
      rw [div_lt_iff₀ (by positivity)]
      have hk : ((((2 : Int) ^ 53 : Int) : ℚ) - 1 / 2) * (2 : ℚ) ^ (971 : Int)
          = (2 : ℚ) ^ 1024 - (2 : ℚ) ^ 970 := by
        rw [show (971 : Int) = ((971 : Nat) : Int) by norm_num, zpow_natCast]
        norm_num
      rw [hk]
      exact hlt
    have := roundHalfEven_lt _ _ ht
    have h0 := roundHalfEven_nonneg (q / (2 : ℚ) ^ (971 : Int))
      (div_nonneg hq (by positivity))
    omega
  · exact ⟨_, rfl⟩


theorem digitChar_isDigit (d : Fin 10) : (digitChar d).isDigit = true := by
  fin_cases d <;> rfl

theorem digitChar_toNat (d : Fin 10) : (digitChar d).toNat - 48 = d.val := by
  fin_cases d <;> rfl

theorem digitChar_ne (d : Fin 10) :
    digitChar d ≠ '-' ∧ digitChar d ≠ '+' ∧ digitChar d ≠ '.' ∧ digitChar d ≠ 'e'
      ∧ digitChar d ≠ 'E' := by
  fin_cases d <;> decide

theorem span_digits (ds : List (Fin 10)) (rest : List Char)
    (hrest : ∀ c r, rest = c :: r → c.isDigit = false) :
    (ds.map digitChar ++ rest).span Char.isDigit = (ds.map digitChar, rest) := by
  rw [List.span_eq_take_drop]
  have hall : ∀ a ∈ ds.map digitChar, Char.isDigit a = true := by
    intro a ha
    obtain ⟨d, _, rfl⟩ := List.mem_map.mp ha
    exact digitChar_isDigit d
  rw [List.takeWhile_append_of_pos hall, List.dropWhile_append_of_pos hall]
  cases rest with
  | nil => simp
  | cons c r =>
    have := hrest c r rfl
    simp [this]

theorem foldl_digits (ds : List (Fin 10)) (n : Nat) :
    (ds.map digitChar).foldl (fun n c => 10 * n + (c.toNat - 48)) n
      = n * 10 ^ ds.length + digitsNumber ds := by
  induction ds generalizing n with
  | nil => simp [digitsNumber]
  | cons d rest ih =>
    simp only [List.map_cons, List.foldl_cons, ih, digitChar_toNat, List.length_cons]
    simp only [digitsNumber, List.reverse_cons, List.map_append, List.map_cons, List.map_nil,
      Nat.ofDigits_append, Nat.ofDigits_singleton, List.length_map, List.length_reverse]
    ring

theorem digitsNat_digits (ds : List (Fin 10)) :
    digitsNat (ds.map digitChar) = digitsNumber ds := by
  simp [digitsNat, foldl_digits]

theorem digitsNumber_lt (ds : List (Fin 10)) : digitsNumber ds < 10 ^ ds.length := by
  have := Nat.ofDigits_lt_base_pow_length (b := 10) (l := ds.reverse.map Fin.val) (by norm_num)
    (by
      intro x hx
      obtain ⟨d, _, rfl⟩ := List.mem_map.mp hx
      exact d.isLt)
  simpa [digitsNumber] using this


theorem exponent_fold (ds : List (Fin 10)) (n j : Nat) (hn : n < 10 ^ j)
    (hj : j + ds.length ≤ 5) :
    (ds.map digitChar).foldl (fun n c => if n < 10000 then 10 * n + (c.toNat - 48) else n) n
      = (ds.map digitChar).foldl (fun n c => 10 * n + (c.toNat - 48)) n := by
  induction ds generalizing n j with
  | nil => rfl
  | cons d rest ih =>
    simp only [List.length_cons] at hj
    have hj4 : j ≤ 4 := by omega
    have h4 : n < 10000 := lt_of_lt_of_le hn
      (le_trans (Nat.pow_le_pow_right (by norm_num) hj4) (by norm_num))
    simp only [List.map_cons, List.foldl_cons, if_pos h4, digitChar_toNat]
    apply ih (10 * n + d.val) (j + 1)
    · have := d.isLt
      rw [pow_succ]
      omega
    · omega

theorem exponentNat_digits (ds : List (Fin 10)) (h : ds.length ≤ 5) :
    exponentNat (ds.map digitChar) = digitsNumber ds := by
  have := exponent_fold ds 0 0 (by norm_num) (by omega)
  rw [exponentNat, this]
  exact digitsNat_digits ds

theorem scanSign_digit (d : Fin 10) (cs : List Char) :
    scanSign (digitChar d :: cs) = (false, digitChar d :: cs) := by
  obtain ⟨h1, h2, _⟩ := digitChar_ne d
  simp [scanSign, h1, h2]

theorem scanExponent_chars (x : Exponent) (h1 : x.digits ≠ []) (h2 : x.digits.length ≤ 5) :
    scanExponent x.chars = some x.value := by
  have hmark : ((if x.upper then 'E' else 'e') = 'e' ∨ (if x.upper then 'E' else 'e') = 'E') := by
    cases x.upper <;> simp
  have hall : (x.digits.map digitChar).all Char.isDigit = true := by
    rw [List.all_eq_true]
    intro c hc
    obtain ⟨d, _, rfl⟩ := List.mem_map.mp hc
    exact digitChar_isDigit d
  have hne : (x.digits.map digitChar).isEmpty = false := by
    cases hd : x.digits with
    | nil => exact absurd hd h1
    | cons d r => rfl
  have hsign : scanSign ((match x.sign with
      | some true => ['-']
      | some false => ['+']
      | none => []) ++ x.digits.map digitChar)
      = (decide (x.sign = some true), x.digits.map digitChar) := by
    rcases hs : x.sign with _ | b
    · cases hd : x.digits with
      | nil => exact absurd hd h1
      | cons d r => simp [scanSign_digit]
    · cases b <;> simp [scanSign]
  simp only [Exponent.chars, scanExponent, hmark, if_true, hsign, hne, hall,
    Bool.not_true, Bool.or_self, Bool.false_eq_true, if_false, exponentNat_digits _ h2,
    Exponent.value, decide_eq_true_eq]

theorem scanDecimal_chars (d : Decimal) (hd : d.IsNumber) :
    scanDecimal d.chars = some (d.neg, digitsNumber (d.int ++ d.frac), d.power) := by
  obtain ⟨hint, hexp⟩ := hd
  obtain ⟨i0, irest, hi⟩ : ∃ i0 irest, d.int = i0 :: irest := by
    cases h : d.int with
    | nil => exact absurd h hint
    | cons a r => exact ⟨a, r, rfl⟩
  -- the exponent part, and what it starts with
  have hE : scanExponent (match d.exp with
      | some x => x.chars
      | none => []) = some (match d.exp with
      | some x => x.value
      | none => 0) := by
    cases hx : d.exp with
    | none => rfl
    | some x => exact scanExponent_chars x (hexp x hx).1 (hexp x hx).2
  have hEhead : ∀ c r, (match d.exp with
      | some x => x.chars
      | none => []) = c :: r → c.isDigit = false ∧ c ≠ '.' := by
    intro c r h
    cases hx : d.exp with
    | none => rw [hx] at h; simp at h
    | some x =>
      rw [hx] at h
      simp only [Exponent.chars, List.cons.injEq] at h
      obtain ⟨hc, _⟩ := h
      subst hc
      cases x.upper <;> exact ⟨by rfl, by decide⟩
  -- the fraction part
  have hF : scanFraction ((if d.frac = [] then [] else '.' :: d.frac.map digitChar)
      ++ (match d.exp with
        | some x => x.chars
        | none => []))
      = (d.frac.map digitChar, (match d.exp with
        | some x => x.chars
        | none => [])) := by
    by_cases hf : d.frac = []
    · simp only [hf, if_true, List.nil_append, List.map_nil]
      cases hr : (match d.exp with
        | some x => x.chars
        | none => []) with
      | nil => rfl
      | cons c r =>
        have := (hEhead c r hr).2
        simp [scanFraction, this]
    · simp only [hf, if_false, List.cons_append, scanFraction, if_true]
      exact span_digits d.frac _ (fun c r h => (hEhead c r h).1)
  have hFhead : ∀ c r, ((if d.frac = [] then [] else '.' :: d.frac.map digitChar)
      ++ (match d.exp with
        | some x => x.chars
        | none => [])) = c :: r → c.isDigit = false := by
    intro c r h
    by_cases hf : d.frac = []
    · simp only [hf, if_true, List.nil_append] at h
      exact (hEhead c r h).1
    · simp only [hf, if_false, List.cons_append, List.cons.injEq] at h
      rw [← h.1]
      rfl
  have hS : scanSign d.chars = (d.neg, d.int.map digitChar
      ++ ((if d.frac = [] then [] else '.' :: d.frac.map digitChar)
      ++ (match d.exp with
        | some x => x.chars
        | none => []))) := by
    simp only [Decimal.chars, hi, List.map_cons, List.append_assoc]
    cases d.neg
    · simp [scanSign_digit]
    · simp [scanSign]
  have hI := span_digits d.int _ hFhead
  have hemp : ((d.int.map digitChar).isEmpty && (d.frac.map digitChar).isEmpty) = false := by
    simp [hi]
  simp only [scanDecimal, hS, hI, hF, hemp, hE, Bool.false_eq_true, if_false, Option.map_some',
    ← List.map_append, digitsNat_digits, List.length_map, Decimal.power]


theorem Decimal.magnitude_nonneg (d : Decimal) : 0 ≤ d.magnitude := by
  unfold Decimal.magnitude
  positivity

/-- The conversion of a number literal rounds the magnitude it writes. -/
theorem parseFloat64_text (d : Decimal) (hd : d.IsNumber) :
    parseFloat64 d.text = roundFloat64 d.neg d.magnitude := by
  simp only [parseFloat64, Decimal.text, scanDecimal_chars d hd, Decimal.magnitude]

/-- The conversion of a number literal is a `float64` nearest to the number written,
with the sign written and an even significand at a tie. -/
theorem parseFloat64_nearest (d : Decimal) (hd : d.IsNumber) (x : Float64)
    (h : parseFloat64 d.text = some x) :
    x.neg = d.neg ∧ x.IsNearest d.value ∧ x.TieEven d.value := by
  rw [parseFloat64_text d hd] at h
  exact roundFloat64_spec d.neg d.magnitude d.magnitude_nonneg x h

/-- A number literal of magnitude below `2 ^ 1024 - 2 ^ 970` converts. -/
theorem parseFloat64_isSome (d : Decimal) (hd : d.IsNumber)
    (hr : d.magnitude < (2 : ℚ) ^ 1024 - (2 : ℚ) ^ 970) :
    ∃ x, parseFloat64 d.text = some x := by
  rw [parseFloat64_text d hd]
  exact roundFloat64_isSome d.neg d.magnitude d.magnitude_nonneg hr

/-- A nearest `float64` to a number that is a `float64` is that number. -/
theorem Float64.IsNearest.exact {v : ℚ} {x : Float64} (h : x.IsNearest v) (y : Float64)
    (hy : y.Canonical) (hv : y.toRat = v) : x.toRat = v := by
  have := h.2 y hy
  rw [hv, sub_self, abs_zero] at this
  have h0 := abs_nonneg (x.toRat - v)
  have : |x.toRat - v| = 0 := le_antisymm this h0
  exact sub_eq_zero.mp (abs_eq_zero.mp this)

theorem digitsValue_digits (ds : List (Fin 10)) (h : ds ≠ []) :
    digitsValue (ds.map digitChar) = some (digitsNumber ds) := by
  have hall : (ds.map digitChar).all Char.isDigit = true := by
    rw [List.all_eq_true]
    intro c hc
    obtain ⟨d, _, rfl⟩ := List.mem_map.mp hc
    exact digitChar_isDigit d
  have hne : (ds.map digitChar).isEmpty = false := by
    cases ds with
    | nil => exact absurd rfl h
    | cons d r => rfl
  simp [digitsValue, hall, hne, digitsNat_digits]

/-- The conversion of an integer literal in the range of `int` is the integer
written. -/
theorem parseInt_text (d : Decimal) (hd : d.IsInteger)
    (hlo : -(2 : ℚ) ^ 63 ≤ d.value) (hhi : d.value < (2 : ℚ) ^ 63) :
    ∃ n : Int, parseInt d.text = some n ∧ (n : ℚ) = d.value := by
  obtain ⟨hint, hfrac, hexp⟩ := hd
  obtain ⟨i0, irest, hi⟩ : ∃ i0 irest, d.int = i0 :: irest := by
    cases h : d.int with
    | nil => exact absurd h hint
    | cons a r => exact ⟨a, r, rfl⟩
  have hmag : d.magnitude = (digitsNumber d.int : ℚ) := by
    simp [Decimal.magnitude, Decimal.power, hfrac, hexp]
  have hS : scanSign d.chars = (d.neg, d.int.map digitChar) := by
    simp only [Decimal.chars, hfrac, hexp, if_true, List.append_nil, hi, List.map_cons]
    cases d.neg
    · simp [scanSign_digit]
    · simp [scanSign]
  simp only [parseInt, Decimal.text, hS, digitsValue_digits d.int hint, Option.some_bind]
  simp only [Decimal.value, hmag] at hlo hhi ⊢
  cases hn : d.neg
  · simp only [hn, Bool.false_eq_true, if_false] at hlo hhi ⊢
    have h1 : digitsNumber d.int < 2 ^ 63 := by exact_mod_cast hhi
    exact ⟨_, by rw [if_pos h1], by push_cast; rfl⟩
  · simp only [hn, if_true] at hlo hhi ⊢
    have h1 : digitsNumber d.int ≤ 2 ^ 63 := by
      have : (digitsNumber d.int : ℚ) ≤ (2 : ℚ) ^ 63 := by linarith
      exact_mod_cast this
    exact ⟨_, by rw [if_pos h1], by push_cast; rfl⟩

end ConversionProps

/-! ## Properties of the decoding -/

section DecodeProps

theorem upsert_of_not_mem {α : Type} (k : String) (v : α) (acc : List (String × α))
    (h : k ∉ acc.map Prod.fst) : upsert k v acc = acc ++ [(k, v)] := by
  induction acc with
  | nil => rfl
  | cons p rest ih =>
    obtain ⟨k', v'⟩ := p
    simp only [List.map_cons, List.mem_cons, not_or] at h
    have hne : ¬ k' = k := fun hk => h.1 hk.symm
    simp only [upsert, if_neg hne, ih h.2, List.cons_append]

theorem lookup_of_mem_nodup {α : Type} (ms : List (String × α)) (k : String) (v : α)
    (hnd : (ms.map Prod.fst).Nodup) (hm : (k, v) ∈ ms) : ms.lookup k = some v := by
  induction ms with
  | nil => simp at hm
  | cons p rest ih =>
    obtain ⟨k', v'⟩ := p
    simp only [List.map_cons, List.nodup_cons] at hnd
    rcases List.mem_cons.mp hm with heq | hin
    · cases heq
      simp
    · have hne : k ≠ k' := by
        intro hk
        subst hk
        exact hnd.1 (List.mem_map.mpr ⟨(k, v), hin, rfl⟩)
      rw [List.lookup_cons]
      have : (k == k') = false := by simpa using hne
      simp only [this]
      exact ih hnd.2 hin

theorem mem_of_lookup {α : Type} (ms : List (String × α)) (k : String) (v : α)
    (h : ms.lookup k = some v) : (k, v) ∈ ms := by
  induction ms with
  | nil => simp at h
  | cons p rest ih =>
    obtain ⟨k', v'⟩ := p
    rw [List.lookup_cons] at h
    by_cases hk : k = k'
    · subst hk
      simp at h
      simp [h]
    · have : (k == k') = false := by simpa using hk
      simp only [this] at h
      exact List.mem_cons_of_mem _ (ih h)

theorem findField_of_mem (names : List String) (n : String) (h : n ∈ names) :
    findField names n = some (names.indexOf n) := by
  simp [findField, h]

theorem findField_none (names : List String) (k : String) (hk : k ∉ names)
    (hf : ∀ n ∈ names, equalFold n k = true → k = n) : findField names k = none := by
  have hnone : names.findIdx? (fun n => equalFold n k) = none := by
    rw [List.findIdx?_eq_none_iff]
    intro n hn
    cases hq : equalFold n k with
    | false => rfl
    | true => exact absurd (hf n hn hq ▸ hn) hk
  simp [findField, hk, hnone]

theorem decodeStrings_strs (ss : List String) :
    decodeStrings (.arr (ss.map .str)) = .ok ss := by
  have h : ∀ l : List String, (l.map Json.str).mapM (decodeString "") = .ok l := by
    intro l
    induction l with
    | nil => rfl
    | cons a rest ih =>
      simp only [List.map_cons, List.mapM_cons, ih, decodeString, bind, Except.bind, pure,
        Except.pure]
  simp only [decodeStrings, h]

theorem decodeHighlight_members (hl acc : List (String × List String))
    (hnd : (acc.map Prod.fst ++ hl.map Prod.fst).Nodup) :
    (hl.map fun kv => (kv.1, Json.arr (kv.2.map Json.str))).foldlM
        (fun acc (kv : String × Json) => do
          let ss ← decodeStrings kv.2
          pure (upsert kv.1 ss acc)) acc
      = (.ok (acc ++ hl) : Except UnmarshalTypeError _) := by
  induction hl generalizing acc with
  | nil => simp [pure, Except.pure]
  | cons p rest ih =>
    obtain ⟨k, ss⟩ := p
    have hk : k ∉ acc.map Prod.fst := by
      intro hin
      have := List.nodup_append.mp hnd
      exact this.2.2 hin (by simp)
    have hnd2 : ((acc ++ [(k, ss)]).map Prod.fst ++ rest.map Prod.fst).Nodup := by
      simpa using hnd
    simp only [List.map_cons, List.foldlM_cons, decodeStrings_strs, bind, Except.bind, pure,
      Except.pure, upsert_of_not_mem k ss acc hk]
    have := ih (acc ++ [(k, ss)]) hnd2
    simpa [bind, Except.bind, pure, Except.pure] using this

theorem decodeHighlight_highlightJson (hl : List (String × List String))
    (hnd : (hl.map Prod.fst).Nodup) : decodeHighlight [] (highlightJson hl) = .ok hl := by
  have := decodeHighlight_members hl [] (by simpa using hnd)
  simpa [decodeHighlight, highlightJson] using this

theorem key_mem_of_lookup {α : Type} (ms : List (String × α)) (k : String) (v : α)
    (h : ms.lookup k = some v) : k ∈ ms.map Prod.fst :=
  List.mem_map.mpr ⟨(k, v), mem_of_lookup ms k v h, rfl⟩

theorem findField_hit_id : findField hitNames "_id" = some 0 := by decide

theorem findField_hit_score : findField hitNames "_score" = some 1 := by decide

theorem findField_hit_source : findField hitNames "_source" = some 2 := by decide

theorem findField_hit_highlight : findField hitNames "highlight" = some 3 := by decide

theorem mem_hitNames (k : String) :
    k ∈ hitNames ↔ k = "_id" ∨ k = "_score" ∨ k = "_source" ∨ k = "highlight" := by
  simp [hitNames]

theorem findField_hits_hits : findField hitsNames "hits" = some 0 := by decide

theorem findField_hits_total : findField hitsNames "total" = some 1 := by decide

theorem findField_hits_max_score : findField hitsNames "max_score" = some 2 := by decide

theorem mem_hitsNames (k : String) :
    k ∈ hitsNames ↔ k = "hits" ∨ k = "total" ∨ k = "max_score" := by
  simp [hitsNames]

theorem findField_response_hits : findField responseNames "hits" = some 0 := by decide

theorem findField_response_took : findField responseNames "took" = some 1 := by decide

theorem findField_response_timed_out : findField responseNames "timed_out" = some 2 := by
  decide

theorem mem_responseNames (k : String) :
    k ∈ responseNames ↔ k = "hits" ∨ k = "took" ∨ k = "timed_out" := by
  simp [responseNames]

theorem forall2_index {α β : Type} (R : α → β → Prop) (l1 : List α) (l2 : List β)
    (h : List.Forall₂ R l1 l2) :
    ∀ (i : Nat) (a : α), l1[i]? = some a → ∃ b, l2[i]? = some b ∧ R a b := by
  induction h with
  | nil => intro i a ha; simp at ha
  | cons hab _ ih =>
    intro i a ha
    cases i with
    | zero =>
      simp only [List.getElem?_cons_zero, Option.some.injEq] at ha
      subst ha
      exact ⟨_, by simp, hab⟩
    | succ j =>
      simp only [List.getElem?_cons_succ] at ha
      obtain ⟨b, hb, hr⟩ := ih j a ha
      exact ⟨b, by simpa using hb, hr⟩

theorem lookup_none_of_not_mem {α : Type} (ms : List (String × α)) (k : String)
    (h : k ∉ ms.map Prod.fst) : ms.lookup k = none := by
  induction ms with
  | nil => rfl
  | cons p rest ih =>
    obtain ⟨k', v'⟩ := p
    simp only [List.map_cons, List.mem_cons, not_or] at h
    rw [List.lookup_cons]
    have : (k == k') = false := by simpa using h.1
    simp only [this]
    exact ih h.2

/-- A member of an object decodes, from the zero value, to the value found for the
field of its key, and a key without member leaves the zero value. -/
theorem member_field {α : Type} (ms : List (String × Json))
    (hnd : (ms.map Prod.fst).Nodup) (k : String)
    (dec : Json → Except UnmarshalTypeError α) (zero final : α)
    (hnull : dec .null = .ok zero)
    (h0 : (Json.obj ms).field k = none → final = zero)
    (h1 : ∀ v, (Json.obj ms).field k = some v → dec v = .ok final) :
    (∀ v, (k, v) ∈ ms → dec v = .ok final) ∧ (k ∉ ms.map Prod.fst → final = zero) := by
  constructor
  · intro v hv
    have hl := lookup_of_mem_nodup ms k v hnd hv
    cases v with
    | null =>
      have : (Json.obj ms).field k = none := by simp [Json.field, Json.get?, hl]
      rw [h0 this]
      exact hnull
    | bool b => exact h1 _ (by simp [Json.field, Json.get?, hl])
    | num l => exact h1 _ (by simp [Json.field, Json.get?, hl])
    | str t => exact h1 _ (by simp [Json.field, Json.get?, hl])
    | arr es => exact h1 _ (by simp [Json.field, Json.get?, hl])
    | obj m => exact h1 _ (by simp [Json.field, Json.get?, hl])
  · intro hk
    have hl := lookup_none_of_not_mem ms k hk
    exact h0 (by simp [Json.field, Json.get?, hl])

theorem field_ne_null (j : Json) (k : String) : j.field k ≠ some .null := by
  unfold Json.field
  split
  · simp
  · rename_i r hr
    intro h
    exact hr h

theorem string_field (f : Option Json) (hf : IsStringField f) :
    ∃ s, StringIs f s ∧ (f = none → s = "")
      ∧ ∀ v, f = some v → decodeString "" v = .ok s := by
  match f, hf with
  | none, _ => exact ⟨"", rfl, fun _ => rfl, fun v h => by simp at h⟩
  | some (.str t), _ =>
    refine ⟨t, rfl, fun h => by simp at h, fun v h => ?_⟩
    cases Option.some.inj h
    rfl

theorem bool_field (f : Option Json) (hf : IsBoolField f) :
    ∃ b, BoolIs f b ∧ (f = none → b = false)
      ∧ ∀ v, f = some v → decodeBool false v = .ok b := by
  match f, hf with
  | none, _ => exact ⟨false, rfl, fun _ => rfl, fun v h => by simp at h⟩
  | some (.bool c), _ =>
    refine ⟨c, rfl, fun h => by simp at h, fun v h => ?_⟩
    cases Option.some.inj h
    rfl

theorem int_field (f : Option Json) (hf : IsIntField f) :
    ∃ n, IntIs f n ∧ (f = none → n = 0)
      ∧ ∀ v, f = some v → decodeInt 0 v = .ok n := by
  match f, hf with
  | none, _ => exact ⟨0, rfl, fun _ => rfl, fun v h => by simp at h⟩
  | some (.num lit), hlit =>
    obtain ⟨hint, hlo, hhi⟩ : lit.InIntRange := hlit
    obtain ⟨n, hn, hval⟩ := parseInt_text lit hint hlo hhi
    refine ⟨n, hval, fun h => by simp at h, fun v h => ?_⟩
    cases Option.some.inj h
    simp only [decodeInt, hn]

theorem float_field (f : Option Json) (hf : IsFloatField f) :
    ∃ x, FloatIs f x ∧ (f = none → x = 0)
      ∧ ∀ v, f = some v → decodeFloat64 parseFloat64 0 v = .ok x := by
  match f, hf with
  | none, _ => exact ⟨0, rfl, fun _ => rfl, fun v h => by simp at h⟩
  | some (.num lit), hlit =>
    obtain ⟨hnum, hmag⟩ : lit.InFloatRange := hlit
    obtain ⟨x, hx⟩ := parseFloat64_isSome lit hnum hmag
    refine ⟨x, parseFloat64_nearest lit hnum x hx, fun h => by simp at h, fun v h => ?_⟩
    cases Option.some.inj h
    simp only [decodeFloat64, hx]

mutual
theorem decodeAny_plain :
    ∀ j : Json, Json.Plain j → ∃ v, decodeAny parseFloat64 j = .ok v ∧ Json.Denotes j v
  | .null, _ => ⟨.nil, rfl, by simp [Json.Denotes]⟩
  | .bool b, _ => ⟨.bool b, rfl, by simp [Json.Denotes]⟩
  | .str s, _ => ⟨.str s, rfl, by simp [Json.Denotes]⟩
  | .num lit, h => by
    simp only [Json.Plain] at h
    obtain ⟨x, hx⟩ := parseFloat64_isSome lit h.1 h.2
    refine ⟨.float64 x, by simp only [decodeAny, hx], ?_⟩
    simp only [Json.Denotes]
    exact ⟨x, rfl, parseFloat64_nearest lit h.1 x hx⟩
  | .arr elems, h => by
    simp only [Json.Plain] at h
    obtain ⟨vs, hvs, hden⟩ := decodeAnyList_plain elems h
    refine ⟨.slice vs, by simp only [decodeAny, hvs, Except.map], ?_⟩
    simp only [Json.Denotes]
    exact ⟨vs, rfl, hden⟩
  | .obj members, h => by
    simp only [Json.Plain] at h
    obtain ⟨kvs, hkvs, hden⟩ := decodeAnyMembers_plain members [] h.1 (by simpa using h.2)
    refine ⟨.map kvs, by simp only [decodeAny, hkvs, Except.map, List.nil_append], ?_⟩
    simp only [Json.Denotes]
    exact ⟨kvs, rfl, hden⟩
theorem decodeAnyList_plain :
    ∀ js : List Json, Json.PlainList js →
      ∃ vs, decodeAnyList parseFloat64 js = .ok vs ∧ Json.DenotesList js vs
  | [], _ => ⟨[], rfl, by simp [Json.DenotesList]⟩
  | j :: js, h => by
    simp only [Json.PlainList] at h
    obtain ⟨v, hv, hden⟩ := decodeAny_plain j h.1
    obtain ⟨vs, hvs, hdens⟩ := decodeAnyList_plain js h.2
    refine ⟨v :: vs, by simp only [decodeAnyList, hv, hvs, bind, Except.bind, pure,
      Except.pure], ?_⟩
    simp only [Json.DenotesList]
    exact ⟨v, vs, rfl, hden, hdens⟩
theorem decodeAnyMembers_plain :
    ∀ (ms : List (String × Json)) (acc : List (String × AnyVal Float64)),
      Json.PlainMembers ms → (acc.map Prod.fst ++ ms.map Prod.fst).Nodup →
      ∃ kvs, decodeAnyMembers parseFloat64 acc ms = .ok (acc ++ kvs)
        ∧ Json.DenotesMembers ms kvs
  | [], acc, _, _ => ⟨[], by simp [decodeAnyMembers], by simp [Json.DenotesMembers]⟩
  | (k, j) :: ms, acc, h, hnd => by
    simp only [Json.PlainMembers] at h
    obtain ⟨v, hv, hden⟩ := decodeAny_plain j h.1
    have hk : k ∉ acc.map Prod.fst := by
      intro hin
      have := List.nodup_append.mp hnd
      exact this.2.2 hin (by simp)
    have hnd2 : ((acc ++ [(k, v)]).map Prod.fst ++ ms.map Prod.fst).Nodup := by
      simpa using hnd
    obtain ⟨kvs, hkvs, hdens⟩ := decodeAnyMembers_plain ms (acc ++ [(k, v)]) h.2 hnd2
    refine ⟨(k, v) :: kvs, ?_, ?_⟩
    · simp only [decodeAnyMembers, hv, bind, Except.bind, upsert_of_not_mem k v acc hk, hkvs,
        List.append_assoc, List.singleton_append]
    · simp only [Json.DenotesMembers]
      exact ⟨v, kvs, rfl, hden, hdens⟩
end

theorem source_field (f : Option Json) (hf : IsSourceField f) :
    ∃ S, SourceIs f S ∧ (f = none → S = [])
      ∧ ∀ v, f = some v → decodeSource parseFloat64 [] v = .ok S := by
  match f, hf with
  | none, _ => exact ⟨[], rfl, fun _ => rfl, fun v h => by simp at h⟩
  | some (.obj members), hpl =>
    have hpl2 : Json.Plain (.obj members) := hpl
    simp only [Json.Plain] at hpl2
    obtain ⟨kvs, hkvs, hden⟩ := decodeAnyMembers_plain members [] hpl2.1 (by simpa using hpl2.2)
    refine ⟨kvs, hden, fun h => by simp at h, fun v h => ?_⟩
    cases Option.some.inj h
    simpa [decodeSource] using hkvs

theorem highlight_field (f : Option Json) (hf : IsHighlightField f) (hnn : f ≠ some .null) :
    ∃ H, HighlightIs f H ∧ (f = none → H = [])
      ∧ ∀ v, f = some v → decodeHighlight [] v = .ok H := by
  match f, hf with
  | none, _ => exact ⟨[], rfl, fun _ => rfl, fun v h => by simp at h⟩
  | some w, hw =>
    obtain ⟨hl, hv, hnd⟩ : ∃ hl, w = highlightJson hl ∧ (hl.map Prod.fst).Nodup := hw
    refine ⟨hl, hv, fun h => by simp at h, fun v h => ?_⟩
    cases Option.some.inj h
    rw [hv]
    exact decodeHighlight_highlightJson hl hnd

/-- Decoding the members of a hit object, from a state in which the fields whose
members are still to come are zero and the others have their final values. -/
theorem decodeHit_members {F : Type} (pf : String → Option F) (zx : F) (id : String) (x : F)
    (S : List (String × AnyVal F)) (H : List (String × List String)) :
    ∀ (ms : List (String × Json)) (s : EsResponseHit F),
      (ms.map Prod.fst).Nodup →
      (∀ v, ("_id", v) ∈ ms → decodeString "" v = .ok id) →
      (∀ v, ("_score", v) ∈ ms → decodeFloat64 pf zx v = .ok x) →
      (∀ v, ("_source", v) ∈ ms → decodeSource pf [] v = .ok S) →
      (∀ v, ("highlight", v) ∈ ms → decodeHighlight [] v = .ok H) →
      (∀ kv ∈ ms, kv.1 ∉ hitNames → findField hitNames kv.1 = none) →
      ("_id" ∈ ms.map Prod.fst → s.Id = "") →
      ("_id" ∉ ms.map Prod.fst → s.Id = id) →
      ("_score" ∈ ms.map Prod.fst → s.Score = zx) →
      ("_score" ∉ ms.map Prod.fst → s.Score = x) →
      ("_source" ∈ ms.map Prod.fst → s.Source = []) →
      ("_source" ∉ ms.map Prod.fst → s.Source = S) →
      ("highlight" ∈ ms.map Prod.fst → s.Hightlight = []) →
      ("highlight" ∉ ms.map Prod.fst → s.Hightlight = H) →
      ms.foldlM (decodeHitField pf) s = .ok ⟨id, x, S, H⟩ := by
  intro ms
  induction ms with
  | nil =>
    intro s _ _ _ _ _ _ _ h2 _ h4 _ h6 _ h8
    obtain ⟨a, b, c, d⟩ := s
    simp only [List.map_nil, List.not_mem_nil, not_false_eq_true, forall_const] at h2 h4 h6 h8
    subst h2 h4 h6 h8
    rfl
  | cons p rest ih =>
    intro s hnd hid hsc hso hhl hother a1 a2 b1 b2 c1 c2 d1 d2
    obtain ⟨k, v⟩ := p
    simp only [List.map_cons, List.nodup_cons] at hnd
    obtain ⟨hk, hnd⟩ := hnd
    have hid2 : ∀ v, ("_id", v) ∈ rest → decodeString "" v = .ok id :=
      fun v hv => hid v (List.mem_cons_of_mem _ hv)
    have hsc2 : ∀ v, ("_score", v) ∈ rest → decodeFloat64 pf zx v = .ok x :=
      fun v hv => hsc v (List.mem_cons_of_mem _ hv)
    have hso2 : ∀ v, ("_source", v) ∈ rest → decodeSource pf [] v = .ok S :=
      fun v hv => hso v (List.mem_cons_of_mem _ hv)
    have hhl2 : ∀ v, ("highlight", v) ∈ rest → decodeHighlight [] v = .ok H :=
      fun v hv => hhl v (List.mem_cons_of_mem _ hv)
    have hother2 : ∀ kv ∈ rest, kv.1 ∉ hitNames → findField hitNames kv.1 = none :=
      fun kv hv => hother kv (List.mem_cons_of_mem _ hv)
    simp only [List.map_cons, List.mem_cons] at a1 a2 b1 b2 c1 c2 d1 d2
    rw [List.foldlM_cons]
    by_cases hmem : k ∈ hitNames
    · rcases (mem_hitNames k).mp hmem with h | h | h | h
      · subst h
        have hv := hid v (List.mem_cons_self _ _)
        have hz : s.Id = "" := a1 (Or.inl rfl)
        simp only [decodeHitField, findField_hit_id, hz, hv, bind, Except.bind, pure,
          Except.pure]
        apply ih _ hnd hid2 hsc2 hso2 hhl2 hother2
        · intro h; exact absurd h hk
        · intro _; rfl
        · intro h; exact b1 (Or.inr h)
        · intro h; exact b2 (by simpa using h)
        · intro h; exact c1 (Or.inr h)
        · intro h; exact c2 (by simpa using h)
        · intro h; exact d1 (Or.inr h)
        · intro h; exact d2 (by simpa using h)
      · subst h
        have hv := hsc v (List.mem_cons_self _ _)
        have hz : s.Score = zx := b1 (Or.inl rfl)
        simp only [decodeHitField, findField_hit_score, hz, hv, bind, Except.bind, pure,
          Except.pure]
        apply ih _ hnd hid2 hsc2 hso2 hhl2 hother2
        · intro h; exact a1 (Or.inr h)
        · intro h; exact a2 (by simpa using h)
        · intro h; exact absurd h hk
        · intro _; rfl
        · intro h; exact c1 (Or.inr h)
        · intro h; exact c2 (by simpa using h)
        · intro h; exact d1 (Or.inr h)
        · intro h; exact d2 (by simpa using h)
      · subst h
        have hv := hso v (List.mem_cons_self _ _)
        have hz : s.Source = [] := c1 (Or.inl rfl)
        simp only [decodeHitField, findField_hit_source, hz, hv, bind, Except.bind, pure,
          Except.pure]
        apply ih _ hnd hid2 hsc2 hso2 hhl2 hother2
        · intro h; exact a1 (Or.inr h)
        · intro h; exact a2 (by simpa using h)
        · intro h; exact b1 (Or.inr h)
        · intro h; exact b2 (by simpa using h)
        · intro h; exact absurd h hk
        · intro _; rfl
        · intro h; exact d1 (Or.inr h)
        · intro h; exact d2 (by simpa using h)
      · subst h
        have hv := hhl v (List.mem_cons_self _ _)
        have hz : s.Hightlight = [] := d1 (Or.inl rfl)
        simp only [decodeHitField, findField_hit_highlight, hz, hv, bind, Except.bind, pure,
          Except.pure]
        apply ih _ hnd hid2 hsc2 hso2 hhl2 hother2
        · intro h; exact a1 (Or.inr h)
        · intro h; exact a2 (by simpa using h)
        · intro h; exact b1 (Or.inr h)
        · intro h; exact b2 (by simpa using h)
        · intro h; exact c1 (Or.inr h)
        · intro h; exact c2 (by simpa using h)
        · intro h; exact absurd h hk
        · intro _; rfl
    · have hnone := hother (k, v) (List.mem_cons_self _ _) hmem
      have hne : ¬ (k = "_id" ∨ k = "_score" ∨ k = "_source" ∨ k = "highlight") :=
        fun h => hmem ((mem_hitNames k).mpr h)
      simp only [not_or] at hne
      simp only [decodeHitField, hnone, bind, Except.bind, pure, Except.pure]
      apply ih _ hnd hid2 hsc2 hso2 hhl2 hother2
      · intro h; exact a1 (Or.inr h)
      · intro h; exact a2 (fun h2 => h2.elim (fun h3 => hne.1 h3.symm) h)
      · intro h; exact b1 (Or.inr h)
      · intro h; exact b2 (fun h2 => h2.elim (fun h3 => hne.2.1 h3.symm) h)
      · intro h; exact c1 (Or.inr h)
      · intro h; exact c2 (fun h2 => h2.elim (fun h3 => hne.2.2.1 h3.symm) h)
      · intro h; exact d1 (Or.inr h)
      · intro h; exact d2 (fun h2 => h2.elim (fun h3 => hne.2.2.2 h3.symm) h)

/-- A well-formed hit decodes, from the zero value, to a hit that agrees with it. -/
theorem decodeHit_wellFormed (e : Json) (hwf : WellFormedHit e) :
    ∃ h, decodeHit parseFloat64 ⟨"", 0, [], []⟩ e = .ok h ∧ HitAgrees e h := by
  obtain ⟨⟨ms, rfl⟩, hkeys, hid, hsc, hso, hhl⟩ := hwf
  simp only [Json.keys] at hkeys
  obtain ⟨hnd, hfold⟩ := hkeys
  obtain ⟨id, hidIs, hid0, hid1⟩ := string_field _ hid
  obtain ⟨x, hxIs, hx0, hx1⟩ := float_field _ hsc
  obtain ⟨S, hSIs, hS0, hS1⟩ := source_field _ hso
  obtain ⟨H, hHIs, hH0, hH1⟩ := highlight_field _ hhl (field_ne_null _ _)
  have fid := member_field ms hnd "_id" (decodeString "") "" id rfl hid0 hid1
  have fx := member_field ms hnd "_score" (decodeFloat64 parseFloat64 0) 0 x rfl hx0 hx1
  have fS := member_field ms hnd "_source" (decodeSource parseFloat64 []) [] S rfl hS0 hS1
  have fH := member_field ms hnd "highlight" (decodeHighlight []) [] H rfl hH0 hH1
  refine ⟨⟨id, x, S, H⟩, ?_, hidIs, hxIs, hSIs, hHIs⟩
  simp only [decodeHit]
  apply decodeHit_members parseFloat64 0 id x S H ms _ hnd fid.1 fx.1 fS.1 fH.1
  · intro kv hkv hnot
    exact findField_none hitNames kv.1 hnot
      (hfold kv.1 (List.mem_map.mpr ⟨kv, hkv, rfl⟩))
  · intro _; rfl
  · intro h; exact (fid.2 h).symm
  · intro _; rfl
  · intro h; exact (fx.2 h).symm
  · intro _; rfl
  · intro h; exact (fS.2 h).symm
  · intro _; rfl
  · intro h; exact (fH.2 h).symm

/-- Well-formed hits decode, over an empty backing array, to as many hits in the same
order, each agreeing with its element. -/
theorem decodeHitList_wellFormed (elems : List Json)
    (hwf : ∀ e ∈ elems, WellFormedHit e) :
    ∃ hs, decodeHitList parseFloat64 [] elems = .ok hs
      ∧ List.Forall₂ HitAgrees elems hs := by
  induction elems with
  | nil => exact ⟨[], rfl, List.Forall₂.nil⟩
  | cons e rest ih =>
    obtain ⟨h, hdec, hagree⟩ := decodeHit_wellFormed e (hwf e (List.mem_cons_self _ _))
    obtain ⟨hs, hrest, hall⟩ := ih (fun e' he' => hwf e' (List.mem_cons_of_mem _ he'))
    refine ⟨h :: hs, ?_, List.Forall₂.cons hagree hall⟩
    simp only [decodeHitList, List.headD_nil, List.tail_nil, hdec, hrest, bind, Except.bind,
      pure, Except.pure]

/-- An array of well-formed hits decodes, into the slice without backing array, to the
slice of the decoded hits, nothing behind it. -/
theorem decodeHitSlice_wellFormed (elems : List Json)
    (hwf : ∀ e ∈ elems, WellFormedHit e) :
    ∃ hs, decodeHitSlice parseFloat64 ⟨[], []⟩ (.arr elems) = .ok ⟨hs, []⟩
      ∧ List.Forall₂ HitAgrees elems hs := by
  obtain ⟨hs, hdec, hall⟩ := decodeHitList_wellFormed elems hwf
  refine ⟨hs, ?_, hall⟩
  cases elems with
  | nil =>
    cases hall
    rfl
  | cons e rest =>
    simp only [decodeHitSlice, List.append_nil, hdec, bind, Except.bind, pure, Except.pure,
      List.drop_nil]

/-- Decoding the members of the `hits` object, from a state in which the fields whose
members are still to come are zero and the others have their final values. -/
theorem decodeHits_members {F : Type} [Zero F] (pf : String → Option F)
    (hs : Slice (EsResponseHit F)) (n : Int) (x : F) :
    ∀ (ms : List (String × Json)) (s : EsResponseHits F),
      (ms.map Prod.fst).Nodup →
      (∀ v, ("hits", v) ∈ ms → decodeHitSlice pf ⟨[], []⟩ v = .ok hs) →
      (∀ v, ("total", v) ∈ ms → decodeInt 0 v = .ok n) →
      (∀ v, ("max_score", v) ∈ ms → decodeFloat64 pf 0 v = .ok x) →
      (∀ kv ∈ ms, kv.1 ∉ hitsNames → findField hitsNames kv.1 = none) →
      ("hits" ∈ ms.map Prod.fst → s.Hits = ⟨[], []⟩) →
      ("hits" ∉ ms.map Prod.fst → s.Hits = hs) →
      ("total" ∈ ms.map Prod.fst → s.Total = 0) →
      ("total" ∉ ms.map Prod.fst → s.Total = n) →
      ("max_score" ∈ ms.map Prod.fst → s.MaxScore = 0) →
      ("max_score" ∉ ms.map Prod.fst → s.MaxScore = x) →
      ms.foldlM (decodeHitsField pf) s = .ok ⟨hs, n, x⟩ := by
  intro ms
  induction ms with
  | nil =>
    intro s _ _ _ _ _ _ h2 _ h4 _ h6
    obtain ⟨a, b, c⟩ := s
    simp only [List.map_nil, List.not_mem_nil, not_false_eq_true, forall_const] at h2 h4 h6
    subst h2 h4 h6
    rfl
  | cons p rest ih =>
    intro s hnd hhi hto hma hother a1 a2 b1 b2 c1 c2
    obtain ⟨k, v⟩ := p
    simp only [List.map_cons, List.nodup_cons] at hnd
    obtain ⟨hk, hnd⟩ := hnd
    have hhi2 : ∀ v, ("hits", v) ∈ rest → decodeHitSlice pf ⟨[], []⟩ v = .ok hs :=
      fun v hv => hhi v (List.mem_cons_of_mem _ hv)
    have hto2 : ∀ v, ("total", v) ∈ rest → decodeInt 0 v = .ok n :=
      fun v hv => hto v (List.mem_cons_of_mem _ hv)
    have hma2 : ∀ v, ("max_score", v) ∈ rest → decodeFloat64 pf 0 v = .ok x :=
      fun v hv => hma v (List.mem_cons_of_mem _ hv)
    have hother2 : ∀ kv ∈ rest, kv.1 ∉ hitsNames → findField hitsNames kv.1 = none :=
      fun kv hv => hother kv (List.mem_cons_of_mem _ hv)
    simp only [List.map_cons, List.mem_cons] at a1 a2 b1 b2 c1 c2
    rw [List.foldlM_cons]
    by_cases hmem : k ∈ hitsNames
    · rcases (mem_hitsNames k).mp hmem with h | h | h
      · subst h
        have hv := hhi v (List.mem_cons_self _ _)
        have hz : s.Hits = ⟨[], []⟩ := a1 (Or.inl rfl)
        simp only [decodeHitsField, findField_hits_hits, hz, hv, bind, Except.bind, pure,
          Except.pure]
        apply ih _ hnd hhi2 hto2 hma2 hother2
        · intro h; exact absurd h hk
        · intro _; rfl
        · intro h; exact b1 (Or.inr h)
        · intro h; exact b2 (by simpa using h)
        · intro h; exact c1 (Or.inr h)
        · intro h; exact c2 (by simpa using h)
      · subst h
        have hv := hto v (List.mem_cons_self _ _)
        have hz : s.Total = 0 := b1 (Or.inl rfl)
        simp only [decodeHitsField, findField_hits_total, hz, hv, bind, Except.bind, pure,
          Except.pure]
        apply ih _ hnd hhi2 hto2 hma2 hother2
        · intro h; exact a1 (Or.inr h)
        · intro h; exact a2 (by simpa using h)
        · intro h; exact absurd h hk
        · intro _; rfl
        · intro h; exact c1 (Or.inr h)
        · intro h; exact c2 (by simpa using h)
      · subst h
        have hv := hma v (List.mem_cons_self _ _)
        have hz : s.MaxScore = 0 := c1 (Or.inl rfl)
        simp only [decodeHitsField, findField_hits_max_score, hz, hv, bind, Except.bind, pure,
          Except.pure]
        apply ih _ hnd hhi2 hto2 hma2 hother2
        · intro h; exact a1 (Or.inr h)
        · intro h; exact a2 (by simpa using h)
        · intro h; exact b1 (Or.inr h)
        · intro h; exact b2 (by simpa using h)
        · intro h; exact absurd h hk
        · intro _; rfl
    · have hnone := hother (k, v) (List.mem_cons_self _ _) hmem
      have hne : ¬ (k = "hits" ∨ k = "total" ∨ k = "max_score") :=
        fun h => hmem ((mem_hitsNames k).mpr h)
      simp only [not_or] at hne
      simp only [decodeHitsField, hnone, bind, Except.bind, pure, Except.pure]
      apply ih _ hnd hhi2 hto2 hma2 hother2
      · intro h; exact a1 (Or.inr h)
      · intro h; exact a2 (fun h2 => h2.elim (fun h3 => hne.1 h3.symm) h)
      · intro h; exact b1 (Or.inr h)
      · intro h; exact b2 (fun h2 => h2.elim (fun h3 => hne.2.1 h3.symm) h)
      · intro h; exact c1 (Or.inr h)
      · intro h; exact c2 (fun h2 => h2.elim (fun h3 => hne.2.2 h3.symm) h)

/-- A well-formed `hits` object decodes, from the zero value, to the decoded hits, the
total and the maximal score it writes. -/
theorem decodeHits_wellFormed (hits : Json) (elems : List Json)
    (hwf : WellFormedHits hits elems) :
    ∃ hs n x, decodeHits parseFloat64 ⟨⟨[], []⟩, 0, 0⟩ hits = .ok ⟨⟨hs, []⟩, n, x⟩
      ∧ List.Forall₂ HitAgrees elems hs
      ∧ IntIs (hits.field "total") n
      ∧ FloatIs (hits.field "max_score") x := by
  obtain ⟨⟨ms, rfl⟩, hkeys, hh, hel, hto, hma⟩ := hwf
  simp only [Json.keys] at hkeys
  obtain ⟨hnd, hfold⟩ := hkeys
  obtain ⟨hs, hdec, hall⟩ := decodeHitSlice_wellFormed elems hel
  obtain ⟨n, hnIs, hn0, hn1⟩ := int_field _ hto
  obtain ⟨x, hxIs, hx0, hx1⟩ := float_field _ hma
  have fh := member_field ms hnd "hits" (decodeHitSlice parseFloat64 ⟨[], []⟩) ⟨[], []⟩
    ⟨hs, []⟩ rfl (fun h => by rw [hh] at h; simp at h)
    (fun v hv => by
      rw [hh] at hv
      cases Option.some.inj hv
      exact hdec)
  have fn := member_field ms hnd "total" (decodeInt 0) 0 n rfl hn0 hn1
  have fx := member_field ms hnd "max_score" (decodeFloat64 parseFloat64 0) 0 x rfl hx0 hx1
  refine ⟨hs, n, x, ?_, hall, hnIs, hxIs⟩
  simp only [decodeHits]
  apply decodeHits_members parseFloat64 ⟨hs, []⟩ n x ms _ hnd fh.1 fn.1 fx.1
  · intro kv hkv hnot
    exact findField_none hitsNames kv.1 hnot
      (hfold kv.1 (List.mem_map.mpr ⟨kv, hkv, rfl⟩))
  · intro _; rfl
  · intro h; exact (fh.2 h).symm
  · intro _; rfl
  · intro h; exact (fn.2 h).symm
  · intro _; rfl
  · intro h; exact (fx.2 h).symm

/-- Decoding the members of the response object, from a state in which the fields whose
members are still to come are zero and the others have their final values. -/
theorem decodeResponse_members {F : Type} [Zero F] (pf : String → Option F)
    (H : EsResponseHits F) (n : Int) (b : Bool) :
    ∀ (ms : List (String × Json)) (s : EsResponse F),
      (ms.map Prod.fst).Nodup →
      (∀ v, ("hits", v) ∈ ms → decodeHits pf ⟨⟨[], []⟩, 0, 0⟩ v = .ok H) →
      (∀ v, ("took", v) ∈ ms → decodeInt 0 v = .ok n) →
      (∀ v, ("timed_out", v) ∈ ms → decodeBool false v = .ok b) →
      (∀ kv ∈ ms, kv.1 ∉ responseNames → findField responseNames kv.1 = none) →
      ("hits" ∈ ms.map Prod.fst → s.Hits = ⟨⟨[], []⟩, 0, 0⟩) →
      ("hits" ∉ ms.map Prod.fst → s.Hits = H) →
      ("took" ∈ ms.map Prod.fst → s.Took = 0) →
      ("took" ∉ ms.map Prod.fst → s.Took = n) →
      ("timed_out" ∈ ms.map Prod.fst → s.TimedOut = false) →
      ("timed_out" ∉ ms.map Prod.fst → s.TimedOut = b) →
      ms.foldlM (decodeResponseField pf) s = .ok ⟨H, n, b⟩ := by
  intro ms
  induction ms with
  | nil =>
    intro s _ _ _ _ _ _ h2 _ h4 _ h6
    obtain ⟨a, c, d⟩ := s
    simp only [List.map_nil, List.not_mem_nil, not_false_eq_true, forall_const] at h2 h4 h6
    subst h2 h4 h6
    rfl
  | cons p rest ih =>
    intro s hnd hhi hto hti hother a1 a2 b1 b2 c1 c2
    obtain ⟨k, v⟩ := p
    simp only [List.map_cons, List.nodup_cons] at hnd
    obtain ⟨hk, hnd⟩ := hnd
    have hhi2 : ∀ v, ("hits", v) ∈ rest → decodeHits pf ⟨⟨[], []⟩, 0, 0⟩ v = .ok H :=
      fun v hv => hhi v (List.mem_cons_of_mem _ hv)
    have hto2 : ∀ v, ("took", v) ∈ rest → decodeInt 0 v = .ok n :=
      fun v hv => hto v (List.mem_cons_of_mem _ hv)
    have hti2 : ∀ v, ("timed_out", v) ∈ rest → decodeBool false v = .ok b :=
      fun v hv => hti v (List.mem_cons_of_mem _ hv)
    have hother2 : ∀ kv ∈ rest, kv.1 ∉ responseNames → findField responseNames kv.1 = none :=
      fun kv hv => hother kv (List.mem_cons_of_mem _ hv)
    simp only [List.map_cons, List.mem_cons] at a1 a2 b1 b2 c1 c2
    rw [List.foldlM_cons]
    by_cases hmem : k ∈ responseNames
    · rcases (mem_responseNames k).mp hmem with h | h | h
      · subst h
        have hv := hhi v (List.mem_cons_self _ _)
        have hz : s.Hits = ⟨⟨[], []⟩, 0, 0⟩ := a1 (Or.inl rfl)
        simp only [decodeResponseField, findField_response_hits, hz, hv, bind, Except.bind,
          pure, Except.pure]
        apply ih _ hnd hhi2 hto2 hti2 hother2
        · intro h; exact absurd h hk
        · intro _; rfl
        · intro h; exact b1 (Or.inr h)
        · intro h; exact b2 (by simpa using h)
        · intro h; exact c1 (Or.inr h)
        · intro h; exact c2 (by simpa using h)
      · subst h
        have hv := hto v (List.mem_cons_self _ _)
        have hz : s.Took = 0 := b1 (Or.inl rfl)
        simp only [decodeResponseField, findField_response_took, hz, hv, bind, Except.bind,
          pure, Except.pure]
        apply ih _ hnd hhi2 hto2 hti2 hother2
        · intro h; exact a1 (Or.inr h)
        · intro h; exact a2 (by simpa using h)
        · intro h; exact absurd h hk
        · intro _; rfl
        · intro h; exact c1 (Or.inr h)
        · intro h; exact c2 (by simpa using h)
      · subst h
        have hv := hti v (List.mem_cons_self _ _)
        have hz : s.TimedOut = false := c1 (Or.inl rfl)
        simp only [decodeResponseField, findField_response_timed_out, hz, hv, bind,
          Except.bind, pure, Except.pure]
        apply ih _ hnd hhi2 hto2 hti2 hother2
        · intro h; exact a1 (Or.inr h)
        · intro h; exact a2 (by simpa using h)
        · intro h; exact b1 (Or.inr h)
        · intro h; exact b2 (by simpa using h)
        · intro h; exact absurd h hk
        · intro _; rfl
    · have hnone := hother (k, v) (List.mem_cons_self _ _) hmem
      have hne : ¬ (k = "hits" ∨ k = "took" ∨ k = "timed_out") :=
        fun h => hmem ((mem_responseNames k).mpr h)
      simp only [not_or] at hne
      simp only [decodeResponseField, hnone, bind, Except.bind, pure, Except.pure]
      apply ih _ hnd hhi2 hto2 hti2 hother2
      · intro h; exact a1 (Or.inr h)
      · intro h; exact a2 (fun h2 => h2.elim (fun h3 => hne.1 h3.symm) h)
      · intro h; exact b1 (Or.inr h)
      · intro h; exact b2 (fun h2 => h2.elim (fun h3 => hne.2.1 h3.symm) h)
      · intro h; exact c1 (Or.inr h)
      · intro h; exact c2 (fun h2 => h2.elim (fun h3 => hne.2.2 h3.symm) h)

/-- A well-formed body decodes to a response whose hits agree, in order, with the
elements of `hits.hits`, nothing behind them, and whose other fields agree with the
body. -/
theorem decodeResponse_wellFormed (body : Json) (elems : List Json)
    (hwf : WellFormedBody body elems) :
    ∃ r, decodeResponse parseFloat64 body = .ok r
      ∧ List.Forall₂ HitAgrees elems r.Hits.Hits.elems
      ∧ ResponseAgrees body r := by
  obtain ⟨⟨ms, rfl⟩, hkeys, ⟨hits, hhits, hwfh⟩, hto, hti⟩ := hwf
  simp only [Json.keys] at hkeys
  obtain ⟨hnd, hfold⟩ := hkeys
  obtain ⟨hs, n, x, hdec, hall, hnIs, hxIs⟩ := decodeHits_wellFormed hits elems hwfh
  obtain ⟨took, htIs, ht0, ht1⟩ := int_field _ hto
  obtain ⟨b, hbIs, hb0, hb1⟩ := bool_field _ hti
  have fh := member_field ms hnd "hits" (decodeHits parseFloat64 ⟨⟨[], []⟩, 0, 0⟩)
    ⟨⟨[], []⟩, 0, 0⟩ ⟨⟨hs, []⟩, n, x⟩ rfl (fun h => by rw [hhits] at h; simp at h)
    (fun v hv => by
      rw [hhits] at hv
      cases Option.some.inj hv
      exact hdec)
  have ft := member_field ms hnd "took" (decodeInt 0) 0 took rfl ht0 ht1
  have fb := member_field ms hnd "timed_out" (decodeBool false) false b rfl hb0 hb1
  refine ⟨⟨⟨⟨hs, []⟩, n, x⟩, took, b⟩, ?_, hall, ⟨hits, hhits, hnIs, hxIs⟩, htIs, hbIs⟩
  simp only [decodeResponse, zeroResponse]
  apply decodeResponse_members parseFloat64 ⟨⟨hs, []⟩, n, x⟩ took b ms _ hnd fh.1 ft.1 fb.1
  · intro kv hkv hnot
    exact findField_none responseNames kv.1 hnot
      (hfold kv.1 (List.mem_map.mpr ⟨kv, hkv, rfl⟩))
  · intro _; rfl
  · intro h; exact (fh.2 h).symm
  · intro _; rfl
  · intro h; exact (ft.2 h).symm
  · intro _; rfl
  · intro h; exact (fb.2 h).symm

/-- No `float64` is the integer `2 ^ 54 + 1`. -/
theorem Float64.ne_odd (x : Float64) (hx : x.Canonical) :
    x.toRat ≠ 18014398509481985 := by
  obtain ⟨hm, _, _, _⟩ := hx
  intro h
  unfold Float64.toRat at h
  have hpos : (0 : ℚ) < (2 : ℚ) ^ x.e := by positivity
  cases hn : x.neg
  · rw [hn] at h
    simp only [Bool.false_eq_true, if_false, one_mul] at h
    rcases le_or_lt 0 x.e with he | he
    · obtain ⟨n, hn2⟩ : ∃ n : Nat, x.e = n := ⟨x.e.toNat, by omega⟩
      rw [hn2, zpow_natCast] at h
      have h2 : x.m * 2 ^ n = 18014398509481985 := by exact_mod_cast h
      cases n with
      | zero =>
        simp only [pow_zero, mul_one] at h2
        omega
      | succ k =>
        have : x.m * 2 ^ (k + 1) = 2 * (x.m * 2 ^ k) := by ring
        omega
    · obtain ⟨n, hn2⟩ : ∃ n : Nat, x.e = -(n : Int) := ⟨(-x.e).toNat, by omega⟩
      rw [hn2, zpow_neg, zpow_natCast] at h
      have hp : (0 : ℚ) < (2 : ℚ) ^ n := by positivity
      have h2 : (x.m : ℚ) = 18014398509481985 * (2 : ℚ) ^ n := by
        field_simp at h
        exact h
      have h3 : x.m = 18014398509481985 * 2 ^ n := by exact_mod_cast h2
      have h4 : 1 ≤ 2 ^ n := Nat.one_le_two_pow
      have h5 : 18014398509481985 * 1 ≤ 18014398509481985 * 2 ^ n :=
        Nat.mul_le_mul_left _ h4
      omega
  · rw [hn] at h
    simp only [if_true] at h
    have : (0 : ℚ) ≤ (x.m : ℚ) * (2 : ℚ) ^ x.e := by positivity
    linarith

theorem literalOdd_digits : digitsNumber (literalOdd.int ++ literalOdd.frac)
    = 18014398509481985 := by
  rfl

theorem literalOdd_value : literalOdd.value = 18014398509481985 := by
  have hp : literalOdd.power = 0 := rfl
  simp only [Decimal.value, Decimal.magnitude, literalOdd_digits, hp, zpow_zero, mul_one]
  simp [literalOdd]

theorem literalOnePointZero_value : literalOnePointZero.value = 1 := by
  simp [Decimal.value, Decimal.magnitude, Decimal.power, literalOnePointZero, digitsNumber,
    Nat.ofDigits]

theorem smallInteger_inIntRange (d : Fin 10) :
    (⟨false, [d], [], none⟩ : Decimal).InIntRange ∧ (⟨false, [d], [], none⟩ : Decimal).value = d.val := by
  have hv : (⟨false, [d], [], none⟩ : Decimal).value = d.val := by
    simp [Decimal.value, Decimal.magnitude, Decimal.power, digitsNumber, Nat.ofDigits]
  refine ⟨⟨⟨by simp, rfl, rfl⟩, ?_, ?_⟩, hv⟩
  · rw [hv]
    have : (0 : ℚ) ≤ (d.val : ℚ) := by positivity
    linarith [show (0 : ℚ) < (2 : ℚ) ^ 63 by positivity]
  · rw [hv]
    have h1 : ((d.val : Nat) : ℚ) < 10 := by exact_mod_cast d.isLt
    have h2 : (10 : ℚ) < (2 : ℚ) ^ 63 := by norm_num
    linarith

theorem literalOnePointZero_inFloatRange : literalOnePointZero.InFloatRange := by
  refine ⟨⟨by simp [literalOnePointZero], fun x h => by simp [literalOnePointZero] at h⟩, ?_⟩
  have hv := literalOnePointZero_value
  simp only [Decimal.value, literalOnePointZero, Bool.false_eq_true, if_false] at hv
  simp only [literalOnePointZero, hv]
  norm_num

theorem literalOdd_inFloatRange : literalOdd.InFloatRange := by
  refine ⟨⟨by simp [literalOdd], fun x h => by simp [literalOdd] at h⟩, ?_⟩
  have hv := literalOdd_value
  simp only [Decimal.value, literalOdd, Bool.false_eq_true, if_false] at hv
  simp only [literalOdd, hv]
  norm_num

theorem exampleHit_wellFormed : WellFormedHit exampleHit :=
  ⟨⟨_, rfl⟩, ⟨by decide, by decide⟩, trivial, literalOnePointZero_inFloatRange,
    ⟨⟨trivial, trivial⟩, by decide⟩, ⟨[], rfl, List.nodup_nil⟩⟩

theorem exampleBody_wellFormed : WellFormedBody exampleBody [exampleHit] :=
  ⟨⟨_, rfl⟩, ⟨by decide, by decide⟩,
    ⟨exampleHits, rfl, ⟨_, rfl⟩, ⟨by decide, by decide⟩, rfl,
      fun e he => (List.mem_singleton.mp he) ▸ exampleHit_wellFormed,
      (smallInteger_inIntRange 1).1, literalOnePointZero_inFloatRange⟩,
    (smallInteger_inIntRange 5).1, trivial⟩

theorem sortedHit_wellFormed : WellFormedHit sortedHit :=
  ⟨⟨_, rfl⟩, ⟨by decide, by decide⟩, trivial, trivial,
    ⟨⟨literalOdd_inFloatRange, trivial⟩, by decide⟩, trivial⟩

theorem sortedBody_wellFormed : WellFormedBody sortedBody [sortedHit] :=
  ⟨⟨_, rfl⟩, ⟨by decide, by decide⟩,
    ⟨.obj [("total", .num ⟨false, [1], [], none⟩), ("max_score", .null),
        ("hits", .arr [sortedHit])],
      rfl, ⟨_, rfl⟩, ⟨by decide, by decide⟩, rfl,
      fun e he => (List.mem_singleton.mp he) ▸ sortedHit_wellFormed,
      (smallInteger_inIntRange 1).1, trivial⟩,
    (smallInteger_inIntRange 5).1, trivial⟩

end DecodeProps

/-! ## The response `Search` decodes -/

section UnmarshalProps

variable {τ ε Req Resp : Type}

/-- The float `1`. -/
theorem one_canonical :
    (⟨false, 2 ^ 52, -52⟩ : Float64).Canonical ∧ (⟨false, 2 ^ 52, -52⟩ : Float64).toRat = 1 := by
  refine ⟨⟨by norm_num, by norm_num, by norm_num, Or.inr (le_refl _)⟩, ?_⟩
  simp only [Float64.toRat, Bool.false_eq_true, if_false, one_mul]
  rw [show (-52 : Int) = -((52 : Nat) : Int) by norm_num, zpow_neg, zpow_natCast]
  norm_num

/-- C9, amended: when the library converts number literals as `strconv.ParseFloat`
does and the body scans as a well-formed response whose `hits.hits` array is `elems`
(unambiguous keys; each field consumed absent, `null` or of its JSON type; integers
within `int`, numbers within `float64`), the decoding `Search` performs succeeds; the
decoded `Hits.Hits` has the length of `elems`; the hit at each index agrees with the
element at that index: `Id` and `Hightlight` are the element's `_id` and `highlight`,
`Score` and every number inside `Source` are a `float64` nearest to the number
written (of even significand at a tie), and a field absent or `null` leaves the zero
value; and `Hits.Total`, `Took` are the integers written, `Hits.MaxScore` is a
`float64` nearest to `hits.max_score`, `TimedOut` is `timed_out`. -/
theorem Unmarshal_agrees (lib : Lib τ Float64 ε Req Resp) (text : Bytes) (body : Json)
    (elems : List Json) (hpf : lib.ParseFloat = parseFloat64)
    (hscan : lib.Scan text = .ok body) (hwf : WellFormedBody body elems) :
    ∃ r, Unmarshal lib text = .ok r
      ∧ r.Hits.Hits.elems.length = elems.length
      ∧ (∀ (i : Nat) (e : Json), elems[i]? = some e →
          ∃ h, r.Hits.Hits.elems[i]? = some h ∧ HitAgrees e h)
      ∧ ResponseAgrees body r := by
  obtain ⟨r, hdec, hall, hagree⟩ := decodeResponse_wellFormed body elems hwf
  refine ⟨r, ?_, hall.length_eq.symm, forall2_index _ _ _ hall, hagree⟩
  simp only [Unmarshal, hscan, hpf, hdec]

/-- C9, an instance: the response body of the example of the specification decodes to
a response with exactly one hit, of id `1`, score 1 and source `{"msg": "error here"}`,
with total 1, took 5 and not timed out. -/
theorem Unmarshal_agrees_witness :
    ∃ r h, Unmarshal (exampleLib exampleText (.ok exampleBody)) exampleText = .ok r
      ∧ r.Hits.Hits.elems = [h]
      ∧ h.Id = "1" ∧ h.Score.toRat = 1
      ∧ h.Source = [("msg", .str "error here")] ∧ h.Hightlight = []
      ∧ r.Hits.Total = 1 ∧ r.Hits.MaxScore.toRat = 1 ∧ r.Took = 5 ∧ r.TimedOut = false := by
  obtain ⟨r, hr, hlen, hidx, ⟨hits, hhits, htot, hmax⟩, htook, htimed⟩ :=
    Unmarshal_agrees (exampleLib exampleText (.ok exampleBody)) exampleText exampleBody
      [exampleHit] rfl rfl exampleBody_wellFormed
  obtain ⟨h, hh, hid, hsc, hso, hhl⟩ := hidx 0 exampleHit rfl
  have hfield : exampleBody.field "hits" = some exampleHits := rfl
  rw [hfield] at hhits
  cases Option.some.inj hhits
  refine ⟨r, h, hr, ?_, ?_, ?_, ?_, ?_, ?_, ?_, ?_, ?_⟩
  · match hl : r.Hits.Hits.elems, hlen, hh with
    | [a], _, hh =>
      simp only [List.getElem?_cons_zero, Option.some.injEq] at hh
      rw [hh]
  · exact hid
  · have h2 : FloatOf literalOnePointZero h.Score := hsc
    have h3 := h2.2.1
    rw [literalOnePointZero_value] at h3
    exact h3.exact _ one_canonical.1 one_canonical.2
  · have h2 : Json.DenotesMembers [("msg", .str "error here")] h.Source := hso
    simp only [Json.DenotesMembers, Json.Denotes] at h2
    obtain ⟨v, rest, h3, h4, h5⟩ := h2
    rw [h3, h4, h5]
  · have h2 : Json.obj [] = highlightJson h.Hightlight := hhl
    simp only [highlightJson, Json.obj.injEq] at h2
    exact List.map_eq_nil_iff.mp h2.symm
  · have h2 : ((r.Hits.Total : Int) : ℚ) = (⟨false, [1], [], none⟩ : Decimal).value := htot
    rw [(smallInteger_inIntRange 1).2] at h2
    exact_mod_cast h2
  · have h2 : FloatOf literalOnePointZero r.Hits.MaxScore := hmax
    have h3 := h2.2.1
    rw [literalOnePointZero_value] at h3
    exact h3.exact _ one_canonical.1 one_canonical.2
  · have h2 : ((r.Took : Int) : ℚ) = (⟨false, [5], [], none⟩ : Decimal).value := htook
    rw [(smallInteger_inIntRange 5).2] at h2
    exact_mod_cast h2
  · exact htimed

/-- C9, as stated, fails: the body `sortedBody`, whose one hit has a `null` score and
the integer `2 ^ 54 + 1` in its source, decodes without error to a hit of score 0
whose source holds a `float64`, and no `float64` is the integer written. -/
theorem Unmarshal_source_not_exact :
    ∃ r h x, Unmarshal (exampleLib sortedText (.ok sortedBody)) sortedText = .ok r
      ∧ r.Hits.Hits.elems = [h]
      ∧ sortedHit.get? "_score" = some .null ∧ h.Score = 0
      ∧ sortedHit.get? "_source" = some (.obj [("n", .num literalOdd)])
      ∧ literalOdd.value = 18014398509481985
      ∧ h.Source = [("n", .float64 x)] ∧ x.toRat ≠ 18014398509481985 := by
  obtain ⟨r, hdec, hall, _⟩ := decodeResponse_wellFormed sortedBody [sortedHit]
    sortedBody_wellFormed
  obtain ⟨h, rest, ⟨_, hsc, hso, _⟩, hrest, heq⟩ := List.forall₂_cons_left_iff.mp hall
  have hnil : rest = [] := List.forall₂_nil_left_iff.mp hrest
  subst hnil
  have h2 : Json.DenotesMembers [("n", .num literalOdd)] h.Source := hso
  simp only [Json.DenotesMembers, Json.Denotes] at h2
  obtain ⟨v, rest, h3, ⟨x, hv, hx⟩, h5⟩ := h2
  refine ⟨r, h, x, ?_, heq, rfl, hsc, rfl, literalOdd_value, ?_, ?_⟩
  · simp only [Unmarshal, exampleLib, hdec]
  · rw [h3, hv, h5]
  · exact Float64.ne_odd x hx.2.1.1

end UnmarshalProps

end Logsearch
